import Mathlib

/-!
Shallow embedding of the proposal pricing and draft-synchronization engine
of the inspectai-app repository (src/proposalDraft.js and the derived-quantity
effect of src/App.jsx), together with theorems settling the specification
claims about it.

JavaScript values are modelled by the inductive type `JSVal`; JavaScript
numbers by `JNum` (NaN, the two infinities, or a finite rational).  Finite
arithmetic is exact rational arithmetic saturating to the infinities once a
result's magnitude reaches the IEEE-double overflow threshold, as JS
arithmetic does; rounding and gradual underflow of in-range results are not
modelled.  Objects are association lists in insertion order; an object
literal with duplicate keys denotes the object obtained by inserting the
fields left to right, as in JavaScript.
-/

namespace InspectAI

/-- A JavaScript number: NaN, +Infinity, -Infinity, or a finite value
(modelled exactly as a rational). -/
inductive JNum where
  | nan
  | inf
  | ninf
  | fin (q : ℚ)
deriving DecidableEq, Repr

/-- A JavaScript value. Objects are association lists of own enumerable
string-keyed fields in insertion order. -/
inductive JSVal where
  | undef
  | null
  | bool (b : Bool)
  | num (n : JNum)
  | str (s : String)
  | arr (xs : List JSVal)
  | obj (fields : List (String × JSVal))
deriving Repr

namespace JNum

/-- `Number.isFinite`. -/
def isFinite : JNum → Bool
  | fin _ => true
  | _ => false

/-- The smallest magnitude that IEEE double round-to-nearest rounds up to
Infinity: the midpoint just above `Number.MAX_VALUE = 2^1024 - 2^971`. -/
def overflowBound : ℚ := 2 ^ 1024 - 2 ^ 970

/-- Fit an exact rational result into the double range: a magnitude at or
beyond `overflowBound` overflows to the corresponding infinity, as IEEE
double arithmetic does.  (Rounding and gradual underflow of in-range
results are not modelled.) -/
def clamp (q : ℚ) : JNum :=
  if overflowBound ≤ q then inf
  else if q ≤ -overflowBound then ninf
  else fin q

/-- JavaScript addition on numbers (exact rational arithmetic on finite
values, overflowing to the infinities past the double range). -/
def add : JNum → JNum → JNum
  | nan, _ => nan
  | _, nan => nan
  | inf, ninf => nan
  | ninf, inf => nan
  | inf, _ => inf
  | _, inf => inf
  | ninf, _ => ninf
  | _, ninf => ninf
  | fin a, fin b => clamp (a + b)

/-- JavaScript multiplication on numbers (exact rational arithmetic on
finite values, overflowing to the infinities past the double range). -/
def mul : JNum → JNum → JNum
  | nan, _ => nan
  | _, nan => nan
  | inf, inf => inf
  | inf, ninf => ninf
  | ninf, inf => ninf
  | ninf, ninf => inf
  | inf, fin q => if 0 < q then inf else if q < 0 then ninf else nan
  | fin q, inf => if 0 < q then inf else if q < 0 then ninf else nan
  | ninf, fin q => if 0 < q then ninf else if q < 0 then inf else nan
  | fin q, ninf => if 0 < q then ninf else if q < 0 then inf else nan
  | fin a, fin b => clamp (a * b)

end JNum

/-! ### String / number conversions -/

/-- JS `WhiteSpace`/`LineTerminator` characters recognized by `trim` and by
numeric-string trimming (the common ones). -/
def isJsSpace (c : Char) : Bool :=
  c = ' ' ∨ c = '\t' ∨ c = '\n' ∨ c = '\r' ∨
  c = '\x0b' ∨ c = '\x0c' ∨ c = ' '

/-- `String.prototype.trim` (structural, kernel-computable). -/
def jsTrim (s : String) : String :=
  ⟨((s.data.dropWhile isJsSpace).reverse.dropWhile isJsSpace).reverse⟩

/-- ASCII `String.prototype.toLowerCase` (structural, kernel-computable). -/
def jsToLower (s : String) : String :=
  ⟨s.data.map (fun c =>
    if 'A' ≤ c ∧ c ≤ 'Z' then Char.ofNat (c.toNat + 32) else c)⟩

/-- Digits of a natural number interpreted in base 10. -/
def digitsToNat (ds : List Char) : ℕ :=
  ds.foldl (fun n c => n * 10 + (c.toNat - 48)) 0

/-- Value of a hexadecimal digit character, if any. -/
def hexDigitVal (c : Char) : Option ℕ :=
  if ('0' ≤ c ∧ c ≤ '9') then some (c.toNat - 48)
  else if ('a' ≤ c ∧ c ≤ 'f') then some (c.toNat - 87)
  else if ('A' ≤ c ∧ c ≤ 'F') then some (c.toNat - 55)
  else none

/-- Digits interpreted in base `b` (assuming all are valid digits below `b`). -/
def digitsToNatBase (b : ℕ) (ds : List Char) : ℕ :=
  ds.foldl (fun n c => n * b + ((hexDigitVal c).getD 0)) 0

/-- Parse the exponent part of a numeric literal and scale `base` accordingly. -/
def parseExpPart (cs : List Char) (base : ℚ) : Option ℚ :=
  let (neg, r) :=
    match cs with
    | '+' :: t => (false, t)
    | '-' :: t => (true, t)
    | t => (false, t)
  let ds := r.takeWhile Char.isDigit
  let rest := r.dropWhile Char.isDigit
  match ds, rest with
  | [], _ => none
  | _, _ :: _ => none
  | _ :: _, [] =>
      let e := digitsToNat ds
      some (if neg then base / 10 ^ e else base * 10 ^ e)

/-- Parse an unsigned decimal numeric literal: digits, an optional fraction,
an optional exponent. -/
def parseUnsignedDec (cs : List Char) : Option ℚ :=
  let ip := cs.takeWhile Char.isDigit
  let r1 := cs.dropWhile Char.isDigit
  match r1 with
  | [] => if ip.isEmpty then none else some (digitsToNat ip)
  | c :: r2 =>
    if c = '.' then
      let fp := r2.takeWhile Char.isDigit
      let r3 := r2.dropWhile Char.isDigit
      if ip.isEmpty ∧ fp.isEmpty then none
      else
        let base : ℚ := (digitsToNat ip : ℚ) + (digitsToNat fp : ℚ) / 10 ^ fp.length
        match r3 with
        | [] => some base
        | e :: r4 => if e = 'e' ∨ e = 'E' then parseExpPart r4 base else none
    else if c = 'e' ∨ c = 'E' then
      if ip.isEmpty then none else parseExpPart r2 (digitsToNat ip)
    else none

/-- Parse a radix-prefixed integer body (after `0x` / `0o` / `0b`). -/
def parseRadixBody (b : ℕ) (cs : List Char) : JNum :=
  if cs ≠ [] ∧ cs.all (fun c => (hexDigitVal c).elim false (· < b)) then
    JNum.clamp (digitsToNatBase b cs)
  else .nan

/-- Parse an optionally signed decimal literal or `Infinity`. -/
def parseSignedDec (cs : List Char) : JNum :=
  let (neg, r) :=
    match cs with
    | '+' :: t => (false, t)
    | '-' :: t => (true, t)
    | t => (false, t)
  if r = "Infinity".toList then (if neg then .ninf else .inf)
  else
    match parseUnsignedDec r with
    | some q => JNum.clamp (if neg then -q else q)
    | none => .nan

/-- `ToNumber` applied to a string: trim, empty → 0, else parse a numeric
literal (decimal, `Infinity`, or radix-prefixed), otherwise NaN. -/
def strToNumber (s : String) : JNum :=
  let t := jsTrim s
  if t = "" then .fin 0
  else
    match t.toList with
    | '0' :: c :: rest =>
        if c = 'x' ∨ c = 'X' then parseRadixBody 16 rest
        else if c = 'o' ∨ c = 'O' then parseRadixBody 8 rest
        else if c = 'b' ∨ c = 'B' then parseRadixBody 2 rest
        else parseSignedDec t.toList
    | _ => parseSignedDec t.toList

/-- Fractional decimal digits of `num / den`, up to `fuel` digits. -/
def fracDigitString (num den : ℕ) : ℕ → String
  | 0 => ""
  | fuel + 1 =>
    if num = 0 ∨ den = 0 then ""
    else
      toString (num * 10 / den) ++ fracDigitString (num * 10 % den) den fuel

/-- Decimal string of a rational (exact for terminating decimals; truncated
at 30 fractional digits otherwise — JS exponent notation for extreme
magnitudes is not modelled). -/
def ratToJsString (q : ℚ) : String :=
  let sgn := if q < 0 then "-" else ""
  let a := |q|
  let ip := a.num.toNat / a.den
  let rem := a.num.toNat % a.den
  let fs := fracDigitString rem a.den 30
  sgn ++ toString ip ++ (if fs = "" then "" else "." ++ fs)

/-- `ToString` applied to a number. -/
def jnumToString : JNum → String
  | .nan => "NaN"
  | .inf => "Infinity"
  | .ninf => "-Infinity"
  | .fin q => ratToJsString q

mutual

/-- JavaScript `String(v)` / `ToString`. -/
def jsToString : JSVal → String
  | .undef => "undefined"
  | .null => "null"
  | .bool b => cond b "true" "false"
  | .num n => jnumToString n
  | .str s => s
  | .arr xs => String.intercalate "," (jsJoinParts xs)
  | .obj _ => "[object Object]"

/-- Elements of an array as rendered by `Array.prototype.join`:
`null`/`undefined` render empty, everything else via `ToString`. -/
def jsJoinParts : List JSVal → List String
  | [] => []
  | .undef :: vs => "" :: jsJoinParts vs
  | .null :: vs => "" :: jsJoinParts vs
  | .bool b :: vs => (cond b "true" "false") :: jsJoinParts vs
  | .num n :: vs => jnumToString n :: jsJoinParts vs
  | .str s :: vs => s :: jsJoinParts vs
  | .arr xs :: vs => String.intercalate "," (jsJoinParts xs) :: jsJoinParts vs
  | .obj _ :: vs => "[object Object]" :: jsJoinParts vs

end

namespace JSVal

/-- JavaScript `Number(v)` / `ToNumber`. -/
def toNumber : JSVal → JNum
  | .undef => .nan
  | .null => .fin 0
  | .bool b => .fin (cond b 1 0)
  | .num n => n
  | .str s => strToNumber s
  | .arr xs => strToNumber (String.intercalate "," (jsJoinParts xs))
  | .obj _ => .nan

/-- JavaScript truthiness. -/
def truthy : JSVal → Bool
  | .undef => false
  | .null => false
  | .bool b => b
  | .num .nan => false
  | .num (.fin q) => decide (q ≠ 0)
  | .num _ => true
  | .str s => decide (s ≠ "")
  | .arr _ => true
  | .obj _ => true

/-- `v == null` (loose equality against null): true exactly for `null` and
`undefined`. -/
def isNullish : JSVal → Bool
  | .undef => true
  | .null => true
  | _ => false

/-- `v === ""` (strict equality against the empty string). -/
def isEmptyStr : JSVal → Bool
  | .str s => decide (s = "")
  | _ => false

/-- `a ?? b` (nullish coalescing). -/
def coalesce (a b : JSVal) : JSVal := if a.isNullish then b else a

end JSVal

/-- `a || b` (logical or on values). -/
def jsOr (a b : JSVal) : JSVal := if a.truthy then a else b

/-! ### Objects as insertion-ordered association lists -/

/-- The fields of an object, in insertion order. -/
abbrev Fields := List (String × JSVal)

/-- Value of the last binding of `k`, if any (later insertions win). -/
def lookupLast : Fields → String → Option JSVal
  | [], _ => none
  | p :: l, k =>
    match lookupLast l k with
    | some w => some w
    | none => if p.1 = k then some p.2 else none

/-- Property read on an object given by its (possibly duplicated) insertion
list: the last binding wins, absent keys give `undefined`. -/
def getVal (l : Fields) (k : String) : JSVal :=
  (lookupLast l k).getD (.undef)

/-- Property read `v.k` (also models `v?.k`: reading from a primitive or
nullish value yields `undefined` — the code never relies on a throw). -/
def JSVal.get : JSVal → String → JSVal
  | .obj fs, k => getVal fs k
  | _, _ => (.undef)

/-- Whether the field list binds `k`. -/
def containsKey : Fields → String → Bool
  | [], _ => false
  | p :: l, k => p.1 = k || containsKey l k

/-- Replace every binding of `k` (on duplicate-free lists, the unique one)
by `(k, v)`, keeping its position. -/
def replaceKey : Fields → String → JSVal → Fields
  | [], _, _ => []
  | p :: l, k, v => (if p.1 = k then (k, v) else p) :: replaceKey l k v

/-- Property write `o[k] = v` on a field list: update in place when the key
exists, append a new binding otherwise. -/
def objSet (l : Fields) (k : String) (v : JSVal) : Fields :=
  if containsKey l k then replaceKey l k v
  else l ++ [(k, v)]

/-- Insert bindings left to right: the duplicate-free, insertion-ordered
field list a JS object literal / spread actually produces. -/
def normalizeFields (l : Fields) : Fields :=
  l.foldl (fun acc p => objSet acc p.1 p.2) []

/-- Own enumerable string-keyed entries of `{...v}` (and of
`Object.entries(v)`): objects give their fields, arrays and strings their
indexed elements, primitives nothing. -/
def jsToSpread : JSVal → Fields
  | .obj fs => normalizeFields fs
  | .arr xs => normalizeFields ((xs.enum).map (fun p => (toString p.1, p.2)))
  | .str s => normalizeFields ((s.toList.enum).map
      (fun p => (toString p.1, .str (String.singleton p.2))))
  | _ => []

/-- `v` is truthy and `typeof v === "object"`: the inputs `applyDefaults`
and `mergeDraft` treat as real objects. -/
def JSVal.isObjLike : JSVal → Bool
  | .obj _ => true
  | .arr _ => true
  | _ => false

/-! ### proposalDraft.js -/

/-- `DEFAULT_RATES.baseRate`. -/
def defaultBaseRate : ℚ := 723

/-- `DEFAULT_RATES.additionalHoodRate`. -/
def defaultAdditionalHoodRate : ℚ := 203

/-- `DEFAULT_RATES.additionalFanRate`. -/
def defaultAdditionalFanRate : ℚ := 203

/-- `DEFAULT_RATES.stdFilterRate`. -/
def defaultStdFilterRate : ℚ := 8

/-- `DEFAULT_RATES.nonStdFilterRate`. -/
def defaultNonStdFilterRate : ℚ := 27 / 2

/-- `DEFAULT_RATES.fuelSurcharge`. -/
def defaultFuelSurcharge : ℚ := 46

/-- The `DEFAULT_RATES` constant object of proposalDraft.js. -/
def DEFAULT_RATES : Fields :=
  [("baseRate", .num (.fin defaultBaseRate)),
   ("additionalHoodRate", .num (.fin defaultAdditionalHoodRate)),
   ("additionalFanRate", .num (.fin defaultAdditionalFanRate)),
   ("stdFilterRate", .num (.fin defaultStdFilterRate)),
   ("nonStdFilterRate", .num (.fin defaultNonStdFilterRate)),
   ("fuelSurcharge", .num (.fin defaultFuelSurcharge))]

/-- `safeNum(v)`: `Number(v)` if finite, else 0. -/
def safeNum (v : JSVal) : JNum :=
  let x := v.toNumber
  if x.isFinite then x else .fin 0

/-- `orDefault(val, def)`: `Number(val)` if finite, else the given default. -/
def orDefault (val : JSVal) (d : JNum) : JNum :=
  let n := val.toNumber
  if n.isFinite then n else d

/-- The per-entry mapping of `normalizeAdditionalItems`'s array tier. -/
def normItem (defaultFreq : JSVal) (a : JSVal) : JSVal :=
  .obj
    [("description", .str (jsToString ((a.get "description").coalesce (.str "")))),
     ("qty", .num (safeNum (a.get "qty"))),
     ("rate", .num (orDefault (a.get "rate") (.fin defaultAdditionalHoodRate))),
     ("frequency",
       let t := jsTrim (jsToString ((a.get "frequency").coalesce defaultFreq))
       if t = "" then defaultFreq else .str t)]

/-- The legacy flat-field tier and placeholder tier of
`normalizeAdditionalItems`. -/
def normalizeAdditionalItemsLegacy (draft : JSVal) (defaultFreq : JSVal) :
    List JSVal :=
  let items :=
    (if ¬ (draft.get "additionalHoodQty").isNullish ∨
        ¬ (draft.get "additionalHoodRate").isNullish then
      [JSVal.obj
        [("description", .str "Additional Hood"),
         ("qty", .num (safeNum (draft.get "additionalHoodQty"))),
         ("rate", .num (orDefault (draft.get "additionalHoodRate")
            (.fin defaultAdditionalHoodRate))),
         ("frequency", jsOr (draft.get "additionalFrequency")
            (jsOr (draft.get "cleaningFrequency") defaultFreq))]]
     else []) ++
    (if ¬ (draft.get "additionalFanQty").isNullish ∨
        ¬ (draft.get "additionalFanRate").isNullish then
      [JSVal.obj
        [("description", .str "Additional Fan"),
         ("qty", .num (safeNum (draft.get "additionalFanQty"))),
         ("rate", .num (orDefault (draft.get "additionalFanRate")
            (.fin defaultAdditionalFanRate))),
         ("frequency", jsOr (draft.get "additionalFrequency")
            (jsOr (draft.get "cleaningFrequency") defaultFreq))]]
     else [])
  if items.isEmpty then
    [JSVal.obj
      [("description", .str "Additional Hood"),
       ("qty", .num (.fin 0)),
       ("rate", .num (.fin defaultAdditionalHoodRate)),
       ("frequency", defaultFreq)]]
  else items

/-- `normalizeAdditionalItems(draft)`: array tier, then legacy flat-field
tier, then a one-element "Additional Hood" placeholder. -/
def normalizeAdditionalItems (draft : JSVal) : List JSVal :=
  let defaultFreq := jsOr (draft.get "cleaningFrequency") (.str "")
  match draft.get "additionalItems" with
  | .arr items =>
    if items.isEmpty then normalizeAdditionalItemsLegacy draft defaultFreq
    else items.map (normItem defaultFreq)
  | _ => normalizeAdditionalItemsLegacy draft defaultFreq

/-- The per-entry mapping of `normalizeRepairs`'s array tier. -/
def normRepair (r : JSVal) : JSVal :=
  .obj
    [("description", .str (jsToString ((r.get "description").coalesce (.str "")))),
     ("amount", .num (safeNum (r.get "amount")))]

/-- The legacy single-field tier and placeholder tier of `normalizeRepairs`. -/
def normalizeRepairsLegacy (draft : JSVal) : List JSVal :=
  if ¬ (draft.get "repairDescription").isNullish ∨
     ¬ (draft.get "repairRate").isNullish then
    [JSVal.obj
      [("description", .str (jsToString ((draft.get "repairDescription").coalesce
          (.str "")))),
       ("amount", .num (safeNum (draft.get "repairRate")))]]
  else
    [JSVal.obj [("description", .str ""), ("amount", .num (.fin 0))]]

/-- `normalizeRepairs(draft)`: array tier, legacy single-field tier, then
an empty placeholder. -/
def normalizeRepairs (draft : JSVal) : List JSVal :=
  match draft.get "repairs" with
  | .arr rs =>
    if rs.isEmpty then normalizeRepairsLegacy draft
    else rs.map normRepair
  | _ => normalizeRepairsLegacy draft

/-- One conditional defaulting step of `applyDefaults`:
`if (d.k == null || d.k === "") d.k = dv`. -/
def setDefault (l : Fields) (k : String) (dv : ℚ) : Fields :=
  let cur := getVal l k
  if cur.isNullish ∨ cur.isEmptyStr then objSet l k (.num (.fin dv)) else l

/-- `v < 1` with a number on the right: `ToNumber(v) < 1`, false on NaN. -/
def jsLtOne (v : JSVal) : Bool :=
  match v.toNumber with
  | .fin q => decide (q < 1)
  | .ninf => true
  | _ => false

/-- One clamping step of `applyDefaults`:
`if (d.k == null || d.k < 1) d.k = 1`. -/
def clampInitQty (l : Fields) (k : String) : Fields :=
  let cur := getVal l k
  if cur.isNullish ∨ jsLtOne cur then objSet l k (.num (.fin 1)) else l

/-- `applyDefaults(draft)`: non-objects give a copy of `DEFAULT_RATES`;
otherwise spread, default the six rate fields, normalize repairs and
additional items, and clamp the initial quantities. -/
def applyDefaults (draft : JSVal) : JSVal :=
  if ¬ draft.isObjLike then .obj DEFAULT_RATES
  else
    let l0 := jsToSpread draft
    let l1 := setDefault l0 "baseRate" defaultBaseRate
    let l2 := setDefault l1 "additionalHoodRate" defaultAdditionalHoodRate
    let l3 := setDefault l2 "additionalFanRate" defaultAdditionalFanRate
    let l4 := setDefault l3 "stdFilterRate" defaultStdFilterRate
    let l5 := setDefault l4 "nonStdFilterRate" defaultNonStdFilterRate
    let l6 := setDefault l5 "fuelSurcharge" defaultFuelSurcharge
    let l7 := objSet l6 "repairs" (.arr (normalizeRepairs (.obj l6)))
    let l8 := objSet l7 "additionalItems" (.arr (normalizeAdditionalItems (.obj l7)))
    let l9 := clampInitQty l8 "initialHoodQty"
    let l10 := clampInitQty l9 "initialFanQty"
    .obj l10

/-- `mergeDraft(prev, incoming)`: copy of `prev` (empty when falsy), then
every key of `incoming` whose value is not `undefined` written on top. -/
def mergeDraft (prev incoming : JSVal) : JSVal :=
  let out := jsToSpread (if prev.truthy then prev else .obj [])
  if ¬ incoming.isObjLike then .obj out
  else
    .obj ((jsToSpread incoming).foldl
      (fun acc p => match p.2 with
        | .undef => acc
        | v => objSet acc p.1 v)
      out)

/-- The record returned by `computeTotals`. -/
structure Totals where
  baseRate : JNum
  addHood : JNum
  addFan : JNum
  mainServiceSubtotal : JNum
  repairsSubtotal : JNum
  filtersSubtotal : JNum
  fuelSubtotal : JNum
  totalPerService : JNum
deriving DecidableEq, Repr

/-- The additional-item list `computeTotals` sums over:
`Array.isArray(draft.additionalItems) ? draft.additionalItems :
normalizeAdditionalItems(draft || {})`. -/
def additionalItemsOfDraft (draft : JSVal) : List JSVal :=
  match draft.get "additionalItems" with
  | .arr xs => xs
  | _ => normalizeAdditionalItems (if draft.truthy then draft else .obj [])

/-- The repair list `computeTotals` sums over:
`Array.isArray(draft.repairs) ? draft.repairs : normalizeRepairs(draft || {})`. -/
def repairsOfDraft (draft : JSVal) : List JSVal :=
  match draft.get "repairs" with
  | .arr xs => xs
  | _ => normalizeRepairs (if draft.truthy then draft else .obj [])

/-- One addend of the additional-items reduce:
`safeNum(a.qty) * orDefault(a.rate, DEFAULT_RATES.additionalHoodRate)`. -/
def itemTerm (a : JSVal) : JNum :=
  (safeNum (a.get "qty")).mul
    (orDefault (a.get "rate") (.fin defaultAdditionalHoodRate))

/-- One addend of the repairs reduce: `safeNum(r.amount)`. -/
def repairTerm (r : JSVal) : JNum :=
  safeNum (r.get "amount")

/-- `computeTotals(draft)`. -/
def computeTotals (draft : JSVal) : Totals :=
  let baseRate := orDefault (draft.get "baseRate") (.fin defaultBaseRate)
  let stdRate := orDefault (draft.get "stdFilterRate") (.fin defaultStdFilterRate)
  let nonStdRate := orDefault (draft.get "nonStdFilterRate")
    (.fin defaultNonStdFilterRate)
  let fuelRate := orDefault (draft.get "fuelSurcharge") (.fin defaultFuelSurcharge)
  let additionalSubtotal := (additionalItemsOfDraft draft).foldl
    (fun s a => s.add (itemTerm a)) (.fin 0)
  let mainServiceSubtotal := baseRate.add additionalSubtotal
  let repairsSubtotal := (repairsOfDraft draft).foldl
    (fun s r => s.add (repairTerm r)) (.fin 0)
  let filtersSubtotal :=
    ((safeNum (draft.get "stdFilterQty")).mul stdRate).add
      ((safeNum (draft.get "nonStdFilterQty")).mul nonStdRate)
  let fuelSubtotal := fuelRate
  let totalPerService :=
    ((mainServiceSubtotal.add repairsSubtotal).add filtersSubtotal).add
      fuelSubtotal
  { baseRate := baseRate
    addHood := additionalSubtotal
    addFan := .fin 0
    mainServiceSubtotal := mainServiceSubtotal
    repairsSubtotal := repairsSubtotal
    filtersSubtotal := filtersSubtotal
    fuelSubtotal := fuelSubtotal
    totalPerService := totalPerService }

/-! ### App.jsx: the derived-quantity effect on equipment-count change -/

/-- The pricing-related piece of the inspection form's state that the
auto-update effect of App.jsx reads and writes. -/
structure FormState where
  hoods : ℚ
  fans : ℚ
  filters : ℚ
  cleaningFrequency : String
  additionalItems : List JSVal
  stdFilterQty : ℚ
  filterExchangeQty : ℚ
  pricingTouched : Bool

/-- `String(x.description || "").trim().toLowerCase() === target`. -/
def descrMatches (target : String) (x : JSVal) : Bool :=
  jsToLower (jsTrim (jsToString (jsOr (x.get "description") (.str "")))) = target

/-- `items[i] = { ...items[i], qty: q }`. -/
def setQtyAt (items : List JSVal) (i : ℕ) (q : ℚ) : List JSVal :=
  items.set i (.obj (objSet (jsToSpread (items.getD i .undef)) "qty"
    (.num (.fin q))))

/-- `normalizeAdditionalItems({ additionalItems: prev, cleaningFrequency })`
as computed at the start of the effect body. -/
def normItemsOf (s : FormState) : List JSVal :=
  normalizeAdditionalItems (.obj
    [("additionalItems", .arr s.additionalItems),
     ("cleaningFrequency", .str s.cleaningFrequency)])

/-- The body of the App.jsx `useEffect` that runs whenever hoods, fans,
filters, pricingTouched, or cleaningFrequency change: re-derives the
"Additional Hood"/"Additional Fan" quantities from the equipment counts
(unconditionally), and mirrors the filter count into `stdFilterQty` and
`filterExchangeQty` only while pricing has not been touched. -/
def countChangeStep (s : FormState) : FormState :=
  let items := normItemsOf s
  let wantHood := max (s.hoods - 1) 0
  let wantFan := max (s.fans - 1) 0
  let idxHood := items.findIdx? (descrMatches "additional hood")
  let idxFan := items.findIdx? (descrMatches "additional fan")
  let items1 :=
    match idxHood with
    | some i => setQtyAt items i wantHood
    | none => items
  let items2 :=
    match idxFan with
    | some i => setQtyAt items1 i wantFan
    | none => items1
  { s with
    additionalItems := items2
    stdFilterQty := if s.pricingTouched then s.stdFilterQty else s.filters
    filterExchangeQty :=
      if s.pricingTouched then s.filterExchangeQty else s.filters }

/-- Keys of an object value, in order. -/
def objKeys : JSVal → List String
  | .obj fs => fs.map Prod.fst
  | _ => []

/-! ### Association-list lemmas -/

theorem lookupLast_append (l₁ l₂ : Fields) (k : String) :
    lookupLast (l₁ ++ l₂) k =
      match lookupLast l₂ k with
      | some w => some w
      | none => lookupLast l₁ k := by
  induction l₁ with
  | nil => simp [lookupLast]; cases lookupLast l₂ k <;> rfl
  | cons p l ih =>
    simp only [List.cons_append, lookupLast, List.append_eq]
    rw [ih]
    cases lookupLast l₂ k <;> cases lookupLast l k <;> rfl

theorem containsKey_iff_mem (l : Fields) (k : String) :
    containsKey l k = true ↔ k ∈ l.map Prod.fst := by
  induction l with
  | nil => simp [containsKey]
  | cons p l ih =>
    simp only [containsKey, List.map_cons, List.mem_cons, Bool.or_eq_true,
      decide_eq_true_eq, ih]
    constructor
    · rintro (h | h)
      · exact Or.inl h.symm
      · exact Or.inr h
    · rintro (h | h)
      · exact Or.inl h.symm
      · exact Or.inr h

theorem lookupLast_eq_none_of_not_contains {l : Fields} {k : String}
    (h : containsKey l k = false) : lookupLast l k = none := by
  induction l with
  | nil => rfl
  | cons p l ih =>
    simp only [containsKey, Bool.or_eq_false_iff] at h
    simp only [lookupLast, ih h.2]
    have : ¬ p.1 = k := by
      intro he
      simp [he] at h
    simp [this]

theorem replaceKey_of_not_contains {l : Fields} {k : String} (v : JSVal)
    (h : containsKey l k = false) : replaceKey l k v = l := by
  induction l with
  | nil => rfl
  | cons p l ih =>
    simp only [containsKey, Bool.or_eq_false_iff] at h
    have : ¬ p.1 = k := by
      intro he
      simp [he] at h
    simp [replaceKey, this, ih h.2]

theorem lookupLast_replaceKey_self {l : Fields} {k : String} (v : JSVal)
    (h : containsKey l k = true) : lookupLast (replaceKey l k v) k = some v := by
  induction l with
  | nil => simp [containsKey] at h
  | cons p l ih =>
    simp only [containsKey, Bool.or_eq_true, decide_eq_true_eq] at h
    by_cases hc : containsKey l k = true
    · simp only [replaceKey, lookupLast, ih hc]
    · have hn : lookupLast (replaceKey l k v) k = none := by
        rw [replaceKey_of_not_contains v (by simpa using hc)]
        exact lookupLast_eq_none_of_not_contains (by simpa using hc)
      have hp : p.1 = k := by
        rcases h with h | h
        · exact h
        · exact absurd h hc
      simp [replaceKey, lookupLast, hp, hn]

theorem lookupLast_replaceKey_ne {l : Fields} {k k₂ : String} (v : JSVal)
    (h : k₂ ≠ k) : lookupLast (replaceKey l k v) k₂ = lookupLast l k₂ := by
  induction l with
  | nil => rfl
  | cons p l ih =>
    by_cases hp : p.1 = k
    · simp [replaceKey, lookupLast, hp, ih, Ne.symm h]
    · simp [replaceKey, lookupLast, hp, ih]

theorem lookupLast_objSet_self (l : Fields) (k : String) (v : JSVal) :
    lookupLast (objSet l k v) k = some v := by
  unfold objSet
  by_cases hc : containsKey l k = true
  · simp [hc, lookupLast_replaceKey_self v hc]
  · have hf : containsKey l k = false := by simpa using hc
    simp only [hf, Bool.false_eq_true, if_false]
    rw [lookupLast_append]
    simp [lookupLast]

theorem lookupLast_objSet_ne (l : Fields) {k k₂ : String} (v : JSVal)
    (h : k₂ ≠ k) : lookupLast (objSet l k v) k₂ = lookupLast l k₂ := by
  unfold objSet
  by_cases hc : containsKey l k = true
  · simp [hc, lookupLast_replaceKey_ne v h]
  · have hf : containsKey l k = false := by simpa using hc
    simp only [hf, Bool.false_eq_true, if_false]
    rw [lookupLast_append]
    simp [lookupLast, Ne.symm h]

theorem getVal_objSet_self (l : Fields) (k : String) (v : JSVal) :
    getVal (objSet l k v) k = v := by
  simp [getVal, lookupLast_objSet_self]

theorem getVal_objSet_ne (l : Fields) {k k₂ : String} (v : JSVal)
    (h : k₂ ≠ k) : getVal (objSet l k v) k₂ = getVal l k₂ := by
  simp [getVal, lookupLast_objSet_ne l v h]

theorem lookupLast_foldl_objSet (l : Fields) (acc : Fields) (k : String) :
    lookupLast (l.foldl (fun a p => objSet a p.1 p.2) acc) k =
      match lookupLast l k with
      | some w => some w
      | none => lookupLast acc k := by
  induction l generalizing acc with
  | nil => simp only [List.foldl_nil]; rfl
  | cons p l ih =>
    simp only [List.foldl_cons, ih, lookupLast]
    cases hl : lookupLast l k with
    | some w => rfl
    | none =>
      by_cases hp : p.1 = k
      · subst hp
        simp [lookupLast_objSet_self]
      · simp [lookupLast_objSet_ne acc p.2 (Ne.symm hp), hp]

theorem lookupLast_normalizeFields (l : Fields) (k : String) :
    lookupLast (normalizeFields l) k = lookupLast l k := by
  unfold normalizeFields
  rw [lookupLast_foldl_objSet]
  cases lookupLast l k <;> rfl

theorem getVal_normalizeFields (l : Fields) (k : String) :
    getVal (normalizeFields l) k = getVal l k := by
  simp [getVal, lookupLast_normalizeFields]

/-- Duplicate-freeness of an insertion list's keys. -/
def keysNodup (l : Fields) : Prop := (l.map Prod.fst).Nodup

theorem keys_replaceKey (l : Fields) (k : String) (v : JSVal) :
    (replaceKey l k v).map Prod.fst = l.map Prod.fst := by
  induction l with
  | nil => rfl
  | cons p l ih =>
    by_cases hp : p.1 = k <;> simp [replaceKey, hp, ih]

theorem keysNodup_objSet {l : Fields} (k : String) (v : JSVal)
    (h : keysNodup l) : keysNodup (objSet l k v) := by
  unfold objSet
  by_cases hc : containsKey l k = true
  · simpa [hc, keysNodup, keys_replaceKey] using h
  · have hf : containsKey l k = false := by simpa using hc
    have hk : k ∉ l.map Prod.fst := by
      intro hm
      rw [← containsKey_iff_mem] at hm
      simp [hm] at hf
    simp only [hf, Bool.false_eq_true, if_false]
    unfold keysNodup at h ⊢
    rw [List.map_append]
    simp [List.nodup_append, h, hk]

theorem keysNodup_foldl_objSet (l : Fields) {acc : Fields}
    (h : keysNodup acc) :
    keysNodup (l.foldl (fun a p => objSet a p.1 p.2) acc) := by
  induction l generalizing acc with
  | nil => exact h
  | cons p l ih => exact ih (keysNodup_objSet p.1 p.2 h)

theorem keysNodup_normalizeFields (l : Fields) :
    keysNodup (normalizeFields l) :=
  keysNodup_foldl_objSet l (by simp [keysNodup])

theorem normalizeFields_of_keysNodup {l : Fields} (h : keysNodup l) :
    normalizeFields l = l := by
  suffices haux : ∀ (l acc : Fields), keysNodup (acc ++ l) →
      l.foldl (fun a p => objSet a p.1 p.2) acc = acc ++ l by
    simpa using haux l [] (by simpa using h)
  intro l
  induction l with
  | nil => intro acc _; simp
  | cons p l ih =>
    intro acc hacc
    have hp : p.1 ∉ acc.map Prod.fst := by
      intro hm
      unfold keysNodup at hacc
      rw [List.map_append] at hacc
      exact List.disjoint_of_nodup_append hacc hm (by simp)
    have hc : containsKey acc p.1 = false := by
      by_contra hcc
      have : containsKey acc p.1 = true := by simpa using hcc
      exact hp ((containsKey_iff_mem acc p.1).mp this)
    have hstep : objSet acc p.1 p.2 = acc ++ [p] := by
      simp [objSet, hc]
    rw [List.foldl_cons, hstep, ih (acc ++ [p]) (by simpa using hacc)]
    simp

theorem replaceKey_self_of_getVal {l : Fields} {k : String} {v : JSVal}
    (hnd : keysNodup l) (hv : getVal l k = v) (hc : containsKey l k = true) :
    replaceKey l k v = l := by
  induction l with
  | nil => simp [containsKey] at hc
  | cons p l ih =>
    have hnd2 : keysNodup l ∧ p.1 ∉ l.map Prod.fst := by
      unfold keysNodup at hnd ⊢
      simp only [List.map_cons, List.nodup_cons] at hnd
      exact ⟨hnd.2, hnd.1⟩
    by_cases hp : p.1 = k
    · have hcl : containsKey l k = false := by
        by_contra hcc
        have : k ∈ l.map Prod.fst :=
          (containsKey_iff_mem l k).mp (by simpa using hcc)
        rw [← hp] at this
        exact hnd2.2 this
      have hvv : v = p.2 := by
        rw [← hv]
        simp [getVal, lookupLast, lookupLast_eq_none_of_not_contains hcl, hp]
      have hhead : (if p.1 = k then (k, v) else p) = p := by
        rw [if_pos hp, hvv, ← hp]
      simp only [replaceKey, hhead, replaceKey_of_not_contains _ hcl]
    · have hcl : containsKey l k = true := by
        simp only [containsKey, Bool.or_eq_true, decide_eq_true_eq] at hc
        rcases hc with hc | hc
        · exact absurd hc hp
        · exact hc
      have hvl : getVal l k = v := by
        rw [← hv]
        simp only [getVal, lookupLast]
        cases hl : lookupLast l k with
        | some w => rfl
        | none => simp [hp, lookupLast_eq_none_of_not_contains, hl]
      simp [replaceKey, hp, ih hnd2.1 hvl hcl]

theorem objSet_self_of_getVal {l : Fields} {k : String} {v : JSVal}
    (hnd : keysNodup l) (hv : getVal l k = v) (hc : containsKey l k = true) :
    objSet l k v = l := by
  simp [objSet, hc, replaceKey_self_of_getVal hnd hv hc]

/-! ### Finiteness lemmas -/

/-- The rational carried by a finite JS number (0 for the non-finite ones). -/
def JNum.toQ : JNum → ℚ
  | .fin q => q
  | _ => 0

theorem JNum.eq_fin_toQ : ∀ {n : JNum}, n.isFinite = true → n = .fin n.toQ := by
  intro n h
  cases n with
  | fin q => rfl
  | nan => simp [isFinite] at h
  | inf => simp [isFinite] at h
  | ninf => simp [isFinite] at h

theorem safeNum_isFinite (v : JSVal) : (safeNum v).isFinite = true := by
  cases hx : v.toNumber with
  | fin q => simp [safeNum, hx, JNum.isFinite]
  | nan => simp [safeNum, hx, JNum.isFinite]
  | inf => simp [safeNum, hx, JNum.isFinite]
  | ninf => simp [safeNum, hx, JNum.isFinite]

theorem orDefault_fin_isFinite (v : JSVal) (c : ℚ) :
    (orDefault v (.fin c)).isFinite = true := by
  cases hx : v.toNumber with
  | fin q => simp [orDefault, hx, JNum.isFinite]
  | nan => simp [orDefault, hx, JNum.isFinite]
  | inf => simp [orDefault, hx, JNum.isFinite]
  | ninf => simp [orDefault, hx, JNum.isFinite]

/-- A result whose magnitude stays below the overflow threshold is kept
finite and exact by the range fit. -/
theorem JNum.clamp_small {q : ℚ} (h1 : q < 2 ^ 1024 - 2 ^ 970)
    (h2 : -(2 ^ 1024 - 2 ^ 970) < q) : JNum.clamp q = .fin q := by
  unfold JNum.clamp JNum.overflowBound
  rw [if_neg (not_le.mpr h1), if_neg (not_le.mpr h2)]

/-- Addition of finite values is exact while the sum stays in range. -/
theorem JNum.add_fin_small (a b : ℚ) (h1 : a + b < 2 ^ 1024 - 2 ^ 970)
    (h2 : -(2 ^ 1024 - 2 ^ 970) < a + b) :
    (JNum.fin a).add (.fin b) = .fin (a + b) := by
  show JNum.clamp (a + b) = .fin (a + b)
  exact JNum.clamp_small h1 h2

/-- Multiplication of finite values is exact while the product stays in
range. -/
theorem JNum.mul_fin_small (a b : ℚ) (h1 : a * b < 2 ^ 1024 - 2 ^ 970)
    (h2 : -(2 ^ 1024 - 2 ^ 970) < a * b) :
    (JNum.fin a).mul (.fin b) = .fin (a * b) := by
  show JNum.clamp (a * b) = .fin (a * b)
  exact JNum.clamp_small h1 h2

/-- Folding `s.add (f a)` over a list is folding `JNum.add` over the mapped
terms. -/
theorem foldl_add_map (f : JSVal → JNum) (xs : List JSVal) (s : JNum) :
    xs.foldl (fun acc a => acc.add (f a)) s =
      (xs.map f).foldl JNum.add s := by
  induction xs generalizing s with
  | nil => rfl
  | cons a xs ih =>
    simp only [List.foldl_cons, List.map_cons]
    exact ih _

/-! ### Emptiness lemmas for the normalizers -/

theorem ite_isEmpty_ne_nil (its ph : List JSVal) (hph : ph ≠ []) :
    (if its.isEmpty then ph else its) ≠ [] := by
  split
  · exact hph
  · rename_i h
    intro hnil
    exact h (by simp [hnil])

theorem normalizeRepairsLegacy_ne_nil (d : JSVal) :
    normalizeRepairsLegacy d ≠ [] := by
  unfold normalizeRepairsLegacy
  split <;> simp

theorem normalizeAdditionalItemsLegacy_ne_nil (d f : JSVal) :
    normalizeAdditionalItemsLegacy d f ≠ [] := by
  unfold normalizeAdditionalItemsLegacy
  exact ite_isEmpty_ne_nil _ _ (by simp)

theorem normalizeRepairs_ne_nil (d : JSVal) : normalizeRepairs d ≠ [] := by
  unfold normalizeRepairs
  cases hd : d.get "repairs" with
  | arr rs =>
    by_cases hrs : rs.isEmpty = true
    · simpa [hrs] using normalizeRepairsLegacy_ne_nil d
    · have hne : rs ≠ [] := by
        intro hnil
        exact hrs (by simp [hnil])
      simp [hrs, hne]
  | undef => exact normalizeRepairsLegacy_ne_nil d
  | null => exact normalizeRepairsLegacy_ne_nil d
  | bool b => exact normalizeRepairsLegacy_ne_nil d
  | num n => exact normalizeRepairsLegacy_ne_nil d
  | str s => exact normalizeRepairsLegacy_ne_nil d
  | obj fs => exact normalizeRepairsLegacy_ne_nil d

theorem normalizeAdditionalItems_ne_nil (d : JSVal) :
    normalizeAdditionalItems d ≠ [] := by
  unfold normalizeAdditionalItems
  cases hd : d.get "additionalItems" with
  | arr its =>
    by_cases hits : its.isEmpty = true
    · simpa [hits] using normalizeAdditionalItemsLegacy_ne_nil d _
    · have hne : its ≠ [] := by
        intro hnil
        exact hits (by simp [hnil])
      simp [hits, hne]
  | undef => exact normalizeAdditionalItemsLegacy_ne_nil d _
  | null => exact normalizeAdditionalItemsLegacy_ne_nil d _
  | bool b => exact normalizeAdditionalItemsLegacy_ne_nil d _
  | num n => exact normalizeAdditionalItemsLegacy_ne_nil d _
  | str s => exact normalizeAdditionalItemsLegacy_ne_nil d _
  | obj fs => exact normalizeAdditionalItemsLegacy_ne_nil d _

/-! ### Claim theorems: totals engine -/

/-- The concrete draft of claim C2. -/
def draftC2 : JSVal := .obj
  [("baseRate", .num (.fin 723)),
   ("additionalItems", .arr [.obj [("qty", .num (.fin 2)),
      ("rate", .num (.fin 203))]]),
   ("stdFilterQty", .num (.fin 4)),
   ("stdFilterRate", .num (.fin 8)),
   ("nonStdFilterQty", .num (.fin 0)),
   ("nonStdFilterRate", .num (.fin (27 / 2))),
   ("fuelSurcharge", .num (.fin 46)),
   ("repairs", .arr [])]

/-- C2: For the concrete draft {baseRate:723, additionalItems:[{qty:2,rate:203}],
stdFilterQty:4, stdFilterRate:8, nonStdFilterQty:0, nonStdFilterRate:13.5,
fuelSurcharge:46, repairs:[]}, `computeTotals` returns an additional-items
subtotal (the `addHood` field) of 406, mainServiceSubtotal 1129,
filtersSubtotal 32, fuelSubtotal 46, repairsSubtotal 0, and
totalPerService 1207. -/
theorem claim_C2_concrete_totals :
    computeTotals draftC2 =
      { baseRate := .fin 723
        addHood := .fin 406
        addFan := .fin 0
        mainServiceSubtotal := .fin 1129
        repairsSubtotal := .fin 0
        filtersSubtotal := .fin 32
        fuelSubtotal := .fin 46
        totalPerService := .fin 1207 } := by
  have hbase : (computeTotals draftC2).baseRate = .fin 723 := rfl
  have haf : (computeTotals draftC2).addFan = .fin 0 := rfl
  have hfuel : (computeTotals draftC2).fuelSubtotal = .fin 46 := rfl
  have hrep : (computeTotals draftC2).repairsSubtotal = .fin 0 := rfl
  have hhood : (computeTotals draftC2).addHood = .fin 406 := by
    have h : (computeTotals draftC2).addHood =
        (JNum.fin 0).add ((JNum.fin 2).mul (.fin 203)) := rfl
    rw [h, JNum.mul_fin_small 2 203 (by norm_num) (by norm_num),
      show (2 : ℚ) * 203 = 406 from by norm_num,
      JNum.add_fin_small 0 406 (by norm_num) (by norm_num)]
    exact congrArg JNum.fin (by norm_num)
  have hms : (computeTotals draftC2).mainServiceSubtotal = .fin 1129 := by
    have h : (computeTotals draftC2).mainServiceSubtotal =
        (JNum.fin 723).add ((computeTotals draftC2).addHood) := rfl
    rw [h, hhood, JNum.add_fin_small 723 406 (by norm_num) (by norm_num)]
    exact congrArg JNum.fin (by norm_num)
  have hfil : (computeTotals draftC2).filtersSubtotal = .fin 32 := by
    have h : (computeTotals draftC2).filtersSubtotal =
        ((JNum.fin 4).mul (.fin 8)).add ((JNum.fin 0).mul (.fin (27 / 2))) :=
      rfl
    rw [h, JNum.mul_fin_small 4 8 (by norm_num) (by norm_num),
      show (4 : ℚ) * 8 = 32 from by norm_num,
      JNum.mul_fin_small 0 (27 / 2) (by norm_num) (by norm_num),
      show (0 : ℚ) * (27 / 2) = 0 from by norm_num,
      JNum.add_fin_small 32 0 (by norm_num) (by norm_num)]
    exact congrArg JNum.fin (by norm_num)
  have htot : (computeTotals draftC2).totalPerService = .fin 1207 := by
    have h : (computeTotals draftC2).totalPerService =
        (((computeTotals draftC2).mainServiceSubtotal.add
          ((computeTotals draftC2).repairsSubtotal)).add
          ((computeTotals draftC2).filtersSubtotal)).add
          ((computeTotals draftC2).fuelSubtotal) := rfl
    rw [h, hms, hrep, hfil, hfuel,
      JNum.add_fin_small 1129 0 (by norm_num) (by norm_num),
      show (1129 : ℚ) + 0 = 1129 from by norm_num,
      JNum.add_fin_small 1129 32 (by norm_num) (by norm_num),
      show (1129 : ℚ) + 32 = 1161 from by norm_num,
      JNum.add_fin_small 1161 46 (by norm_num) (by norm_num)]
    exact congrArg JNum.fin (by norm_num)
  have heta : computeTotals draftC2 = Totals.mk
      ((computeTotals draftC2).baseRate) ((computeTotals draftC2).addHood)
      ((computeTotals draftC2).addFan)
      ((computeTotals draftC2).mainServiceSubtotal)
      ((computeTotals draftC2).repairsSubtotal)
      ((computeTotals draftC2).filtersSubtotal)
      ((computeTotals draftC2).fuelSubtotal)
      ((computeTotals draftC2).totalPerService) := rfl
  rw [heta, hbase, hhood, haf, hms, hrep, hfil, hfuel, htot]

/-- `computeTotals` on the empty object: every field finite and exact. -/
theorem computeTotals_empty :
    computeTotals (.obj []) =
      { baseRate := .fin 723
        addHood := .fin 0
        addFan := .fin 0
        mainServiceSubtotal := .fin 723
        repairsSubtotal := .fin 0
        filtersSubtotal := .fin 0
        fuelSubtotal := .fin 46
        totalPerService := .fin 769 } := by
  have hbase : (computeTotals (.obj [])).baseRate = .fin 723 := rfl
  have haf : (computeTotals (.obj [])).addFan = .fin 0 := rfl
  have hfuel : (computeTotals (.obj [])).fuelSubtotal = .fin 46 := rfl
  have hhood : (computeTotals (.obj [])).addHood = .fin 0 := by
    have h : (computeTotals (.obj [])).addHood =
        (JNum.fin 0).add ((JNum.fin 0).mul (.fin 203)) := rfl
    rw [h, JNum.mul_fin_small 0 203 (by norm_num) (by norm_num),
      show (0 : ℚ) * 203 = 0 from by norm_num,
      JNum.add_fin_small 0 0 (by norm_num) (by norm_num)]
    exact congrArg JNum.fin (by norm_num)
  have hrep : (computeTotals (.obj [])).repairsSubtotal = .fin 0 := by
    have h : (computeTotals (.obj [])).repairsSubtotal =
        (JNum.fin 0).add (.fin 0) := rfl
    rw [h, JNum.add_fin_small 0 0 (by norm_num) (by norm_num)]
    exact congrArg JNum.fin (by norm_num)
  have hms : (computeTotals (.obj [])).mainServiceSubtotal = .fin 723 := by
    have h : (computeTotals (.obj [])).mainServiceSubtotal =
        (JNum.fin 723).add ((computeTotals (.obj [])).addHood) := rfl
    rw [h, hhood, JNum.add_fin_small 723 0 (by norm_num) (by norm_num)]
    exact congrArg JNum.fin (by norm_num)
  have hfil : (computeTotals (.obj [])).filtersSubtotal = .fin 0 := by
    have h : (computeTotals (.obj [])).filtersSubtotal =
        ((JNum.fin 0).mul (.fin 8)).add ((JNum.fin 0).mul (.fin (27 / 2))) :=
      rfl
    rw [h, JNum.mul_fin_small 0 8 (by norm_num) (by norm_num),
      show (0 : ℚ) * 8 = 0 from by norm_num,
      JNum.mul_fin_small 0 (27 / 2) (by norm_num) (by norm_num),
      show (0 : ℚ) * (27 / 2) = 0 from by norm_num,
      JNum.add_fin_small 0 0 (by norm_num) (by norm_num)]
    exact congrArg JNum.fin (by norm_num)
  have htot : (computeTotals (.obj [])).totalPerService = .fin 769 := by
    have h : (computeTotals (.obj [])).totalPerService =
        (((computeTotals (.obj [])).mainServiceSubtotal.add
          ((computeTotals (.obj [])).repairsSubtotal)).add
          ((computeTotals (.obj [])).filtersSubtotal)).add
          ((computeTotals (.obj [])).fuelSubtotal) := rfl
    rw [h, hms, hrep, hfil, hfuel,
      JNum.add_fin_small 723 0 (by norm_num) (by norm_num),
      show (723 : ℚ) + 0 = 723 from by norm_num,
      JNum.add_fin_small 723 0 (by norm_num) (by norm_num),
      show (723 : ℚ) + 0 = 723 from by norm_num,
      JNum.add_fin_small 723 46 (by norm_num) (by norm_num)]
    exact congrArg JNum.fin (by norm_num)
  have heta : computeTotals (.obj []) = Totals.mk
      ((computeTotals (.obj [])).baseRate) ((computeTotals (.obj [])).addHood)
      ((computeTotals (.obj [])).addFan)
      ((computeTotals (.obj [])).mainServiceSubtotal)
      ((computeTotals (.obj [])).repairsSubtotal)
      ((computeTotals (.obj [])).filtersSubtotal)
      ((computeTotals (.obj [])).fuelSubtotal)
      ((computeTotals (.obj [])).totalPerService) := rfl
  rw [heta, hbase, hhood, haf, hms, hrep, hfil, hfuel, htot]

/-- The overflowing draft refuting claim C3: two additional items whose
quantities and rates are 1e300 in magnitude. -/
def draftC3 : JSVal := .obj
  [("additionalItems", .arr
    [.obj [("qty", .num (.fin (10 ^ 300))),
           ("rate", .num (.fin (10 ^ 300)))],
     .obj [("qty", .num (.fin (-(10 ^ 300)))),
           ("rate", .num (.fin (10 ^ 300)))]])]

/-- C3 counterexample: on {additionalItems:[{qty:1e300,rate:1e300},
{qty:-1e300,rate:1e300}]} the first item's product overflows the double
range to Infinity, the second to -Infinity, and their sum — hence the
additional-items subtotal and with it the grand total — is NaN, not a
finite number.  This refutes "every field is finite — never NaN" for
arbitrary input values. -/
theorem claim_C3_counterexample :
    (computeTotals draftC3).addHood = JNum.nan ∧
    (computeTotals draftC3).totalPerService = JNum.nan ∧
    (computeTotals draftC3).totalPerService.isFinite = false := by
  have hm1 : (JNum.fin (10 ^ 300)).mul (.fin (10 ^ 300)) = JNum.inf := by
    show JNum.clamp ((10 ^ 300 : ℚ) * 10 ^ 300) = JNum.inf
    unfold JNum.clamp JNum.overflowBound
    rw [if_pos (by norm_num)]
  have hm2 : (JNum.fin (-(10 ^ 300))).mul (.fin (10 ^ 300)) = JNum.ninf := by
    show JNum.clamp (-(10 ^ 300 : ℚ) * 10 ^ 300) = JNum.ninf
    unfold JNum.clamp JNum.overflowBound
    rw [if_neg (by norm_num), if_pos (by norm_num)]
  have hhood : (computeTotals draftC3).addHood = JNum.nan := by
    have h : (computeTotals draftC3).addHood =
        ((JNum.fin 0).add ((JNum.fin (10 ^ 300)).mul (.fin (10 ^ 300)))).add
          ((JNum.fin (-(10 ^ 300))).mul (.fin (10 ^ 300))) := rfl
    rw [h, hm1, hm2]
    rfl
  have hms : (computeTotals draftC3).mainServiceSubtotal = JNum.nan := by
    have h : (computeTotals draftC3).mainServiceSubtotal =
        (JNum.fin 723).add ((computeTotals draftC3).addHood) := rfl
    rw [h, hhood]
    rfl
  have hrep : (computeTotals draftC3).repairsSubtotal = .fin 0 := by
    have h : (computeTotals draftC3).repairsSubtotal =
        (JNum.fin 0).add (.fin 0) := rfl
    rw [h, JNum.add_fin_small 0 0 (by norm_num) (by norm_num)]
    exact congrArg JNum.fin (by norm_num)
  have hfil : (computeTotals draftC3).filtersSubtotal = .fin 0 := by
    have h : (computeTotals draftC3).filtersSubtotal =
        ((JNum.fin 0).mul (.fin 8)).add ((JNum.fin 0).mul (.fin (27 / 2))) :=
      rfl
    rw [h, JNum.mul_fin_small 0 8 (by norm_num) (by norm_num),
      show (0 : ℚ) * 8 = 0 from by norm_num,
      JNum.mul_fin_small 0 (27 / 2) (by norm_num) (by norm_num),
      show (0 : ℚ) * (27 / 2) = 0 from by norm_num,
      JNum.add_fin_small 0 0 (by norm_num) (by norm_num)]
    exact congrArg JNum.fin (by norm_num)
  have hfuel : (computeTotals draftC3).fuelSubtotal = .fin 46 := rfl
  have htot : (computeTotals draftC3).totalPerService = JNum.nan := by
    have h : (computeTotals draftC3).totalPerService =
        (((computeTotals draftC3).mainServiceSubtotal.add
          ((computeTotals draftC3).repairsSubtotal)).add
          ((computeTotals draftC3).filtersSubtotal)).add
          ((computeTotals draftC3).fuelSubtotal) := rfl
    rw [h, hms, hrep, hfil, hfuel]
    rfl
  exact ⟨hhood, htot, by rw [htot]; rfl⟩

/-- C3 (amended): NaN is never propagated from the inputs into the
arithmetic — every quantity, rate and amount passes through
`safeNum`/`orDefault`, whose results are always finite — and the fields
read off directly from coerced inputs (baseRate, addFan, fuelSubtotal) are
finite for every input value.  On the empty object every field of
`computeTotals` is finite.  (The subtotal arithmetic itself can still
overflow the double range for astronomically large inputs, as the
counterexample shows, so finiteness of the computed subtotals is not
universal.) -/
theorem claim_C3_amended (draft : JSVal) :
    (∀ v : JSVal, (safeNum v).isFinite = true) ∧
    (∀ (v : JSVal) (c : ℚ), (orDefault v (.fin c)).isFinite = true) ∧
    (computeTotals draft).baseRate.isFinite = true ∧
    (computeTotals draft).addFan.isFinite = true ∧
    (computeTotals draft).fuelSubtotal.isFinite = true ∧
    (computeTotals (.obj [])).baseRate.isFinite = true ∧
    (computeTotals (.obj [])).addHood.isFinite = true ∧
    (computeTotals (.obj [])).addFan.isFinite = true ∧
    (computeTotals (.obj [])).mainServiceSubtotal.isFinite = true ∧
    (computeTotals (.obj [])).repairsSubtotal.isFinite = true ∧
    (computeTotals (.obj [])).filtersSubtotal.isFinite = true ∧
    (computeTotals (.obj [])).fuelSubtotal.isFinite = true ∧
    (computeTotals (.obj [])).totalPerService.isFinite = true := by
  refine ⟨safeNum_isFinite, orDefault_fin_isFinite,
    orDefault_fin_isFinite _ _, rfl, orDefault_fin_isFinite _ _,
    ?_, ?_, ?_, ?_, ?_, ?_, ?_, ?_⟩ <;> rw [computeTotals_empty] <;> rfl

/-- C6: `normalizeRepairs({})` returns exactly the one-entry placeholder
`[{description:"", amount:0}]`, `normalizeAdditionalItems({})` returns
exactly one "Additional Hood" entry with qty 0, and for every input draft
both normalizers return a non-empty list. -/
theorem claim_C6_placeholder_nonempty :
    normalizeRepairs (.obj []) =
      [.obj [("description", .str ""), ("amount", .num (.fin 0))]] ∧
    normalizeAdditionalItems (.obj []) =
      [.obj [("description", .str "Additional Hood"),
             ("qty", .num (.fin 0)),
             ("rate", .num (.fin defaultAdditionalHoodRate)),
             ("frequency", .str "")]] ∧
    (∀ d : JSVal, normalizeRepairs d ≠ []) ∧
    (∀ d : JSVal, normalizeAdditionalItems d ≠ []) :=
  ⟨rfl, rfl, normalizeRepairs_ne_nil, normalizeAdditionalItems_ne_nil⟩

/-- The concrete legacy-shaped draft of claim C7. -/
def draftC7 : JSVal := .obj
  [("additionalHoodQty", .num (.fin 1)),
   ("additionalHoodRate", .num (.fin 200)),
   ("additionalFanQty", .num (.fin 0))]

/-- The "Additional Hood" entry claim C7 expects. -/
def hoodItemC7 : JSVal := .obj
  [("description", .str "Additional Hood"),
   ("qty", .num (.fin 1)),
   ("rate", .num (.fin 200)),
   ("frequency", .str "")]

/-- C7: For the legacy-shaped draft {additionalHoodQty:1,
additionalHoodRate:200, additionalFanQty:0} with no additionalItems array,
`normalizeAdditionalItems` reconstructs an array containing an
"Additional Hood" entry with qty 1 and rate 200. -/
theorem claim_C7_legacy_fallback :
    hoodItemC7 ∈ normalizeAdditionalItems draftC7 ∧
    hoodItemC7.get "description" = .str "Additional Hood" ∧
    hoodItemC7.get "qty" = .num (.fin 1) ∧
    hoodItemC7.get "rate" = .num (.fin 200) := by
  have h : normalizeAdditionalItems draftC7 =
      [hoodItemC7,
       .obj [("description", .str "Additional Fan"),
             ("qty", .num (.fin 0)),
             ("rate", .num (.fin defaultAdditionalFanRate)),
             ("frequency", .str "")]] := by rfl
  refine ⟨?_, rfl, rfl, rfl⟩
  rw [h]
  exact List.mem_cons_self _ _

/-- C9: For every input that is not an object (null, undefined, a number, a
string, a boolean), `applyDefaults` returns exactly a copy of the six-field
`DEFAULT_RATES` record, with no additionalItems array, no repairs array, and
no initialHoodQty/initialFanQty fields. -/
theorem claim_C9_nonobject_branch (v : JSVal) (h : v.isObjLike = false) :
    applyDefaults v = .obj DEFAULT_RATES ∧
    (applyDefaults v).get "additionalItems" = .undef ∧
    (applyDefaults v).get "repairs" = .undef ∧
    (applyDefaults v).get "initialHoodQty" = .undef ∧
    (applyDefaults v).get "initialFanQty" = .undef ∧
    objKeys (applyDefaults v) =
      ["baseRate", "additionalHoodRate", "additionalFanRate",
       "stdFilterRate", "nonStdFilterRate", "fuelSurcharge"] := by
  have hA : applyDefaults v = .obj DEFAULT_RATES := by
    unfold applyDefaults
    simp [h]
  exact ⟨hA, by rw [hA]; rfl, by rw [hA]; rfl, by rw [hA]; rfl,
    by rw [hA]; rfl, by rw [hA]; rfl⟩

/-- Witness for C9 at the concrete non-object input `null`. -/
theorem claim_C9_witness : applyDefaults JSVal.null = .obj DEFAULT_RATES :=
  (claim_C9_nonobject_branch JSVal.null rfl).1

/-- C10: For every input draft, the `addFan` field of `computeTotals` is 0
and the `addHood` field is the entire additional-items subtotal
Σ (qty_i × rate_i) over all additional items, fan entries included: the sum
over the whole item list of the coerced quantity times the coerced rate. -/
theorem claim_C10_addfan_zero (draft : JSVal) :
    (computeTotals draft).addFan = .fin 0 ∧
    (computeTotals draft).addHood =
      ((additionalItemsOfDraft draft).map
        (fun a => (safeNum (a.get "qty")).mul
          (orDefault (a.get "rate") (.fin defaultAdditionalHoodRate)))).foldl
        JNum.add (.fin 0) := by
  refine ⟨rfl, ?_⟩
  have h : (computeTotals draft).addHood =
      (additionalItemsOfDraft draft).foldl
        (fun s a => s.add (itemTerm a)) (JNum.fin 0) := rfl
  rw [h, foldl_add_map itemTerm]
  rfl

/-! ### Claim theorems: merge and defaulting -/

/-- C8: `mergeDraft` copies onto `prev` only the keys whose value in
`incoming` is not undefined: merging the empty object changes nothing, and
merging `{baseRate: 100}` changes only the `baseRate` field. Stated for
any object `prev` given by a duplicate-free insertion list (the only lists
JS objects produce). -/
theorem claim_C8_merge_frame (fs : Fields) (h : normalizeFields fs = fs) :
    mergeDraft (.obj fs) (.obj []) = .obj fs ∧
    (mergeDraft (.obj fs)
      (.obj [("baseRate", .num (.fin 100))])).get "baseRate" =
      .num (.fin 100) ∧
    ∀ k, k ≠ "baseRate" →
      (mergeDraft (.obj fs) (.obj [("baseRate", .num (.fin 100))])).get k =
        (JSVal.obj fs).get k := by
  have h1 : mergeDraft (.obj fs) (.obj []) = .obj (normalizeFields fs) := rfl
  have h2 : mergeDraft (.obj fs) (.obj [("baseRate", .num (.fin 100))]) =
      .obj (objSet (normalizeFields fs) "baseRate" (.num (.fin 100))) := rfl
  refine ⟨by rw [h1, h], ?_, ?_⟩
  · rw [h2, h]
    show getVal (objSet fs "baseRate" (.num (.fin 100))) "baseRate" =
      .num (.fin 100)
    exact getVal_objSet_self fs "baseRate" _
  · intro k hk
    rw [h2, h]
    show getVal (objSet fs "baseRate" (.num (.fin 100))) k = getVal fs k
    exact getVal_objSet_ne fs _ hk

/-- Witness for C8 at a concrete one-field object. -/
theorem claim_C8_witness :
    mergeDraft (.obj [("restaurantName", JSVal.str "Joe")]) (.obj []) =
      .obj [("restaurantName", JSVal.str "Joe")] ∧
    (mergeDraft (.obj [("restaurantName", JSVal.str "Joe")])
      (.obj [("baseRate", .num (.fin 100))])).get "baseRate" =
      .num (.fin 100) ∧
    (mergeDraft (.obj [("restaurantName", JSVal.str "Joe")])
      (.obj [("baseRate", .num (.fin 100))])).get "restaurantName" =
      JSVal.str "Joe" := by
  obtain ⟨h1, h2, h3⟩ :=
    claim_C8_merge_frame [("restaurantName", JSVal.str "Joe")] rfl
  refine ⟨h1, h2, ?_⟩
  rw [h3 "restaurantName" (by decide)]
  rfl

/-! ### Conditional read lemmas for the `applyDefaults` pipeline -/

theorem getVal_objSet (l : Fields) (k₂ k : String) (v : JSVal) :
    getVal (objSet l k v) k₂ = if k₂ = k then v else getVal l k₂ := by
  by_cases h : k₂ = k
  · subst h
    simp [getVal_objSet_self]
  · simp [h, getVal_objSet_ne l v h]

theorem getVal_setDefault (l : Fields) (k₂ k : String) (dv : ℚ) :
    getVal (setDefault l k dv) k₂ =
      if k₂ = k then
        (if (getVal l k).isNullish ∨ (getVal l k).isEmptyStr
         then .num (.fin dv) else getVal l k)
      else getVal l k₂ := by
  unfold setDefault
  by_cases hc : (getVal l k).isNullish ∨ (getVal l k).isEmptyStr
  · simp only [hc, if_true, getVal_objSet]
  · simp only [hc, if_false, if_neg]
    split
    · rename_i he
      rw [he]
    · rfl

theorem getVal_clampInitQty (l : Fields) (k₂ k : String) :
    getVal (clampInitQty l k) k₂ =
      if k₂ = k then
        (if (getVal l k).isNullish ∨ jsLtOne (getVal l k)
         then .num (.fin 1) else getVal l k)
      else getVal l k₂ := by
  unfold clampInitQty
  by_cases hc : (getVal l k).isNullish ∨ jsLtOne (getVal l k)
  · simp only [hc, if_true, getVal_objSet]
  · simp only [hc, if_false, if_neg]
    split
    · rename_i he
      rw [he]
    · rfl

theorem getVal_singleton (k₂ k : String) (v : JSVal) :
    getVal [(k, v)] k₂ = if k₂ = k then v else .undef := by
  simp only [getVal, lookupLast]
  by_cases h : k = k₂
  · subst h
    simp
  · have h2 : ¬ k₂ = k := fun he => h he.symm
    simp [h, h2]

theorem normalizeFields_singleton (k : String) (v : JSVal) :
    normalizeFields [(k, v)] = [(k, v)] := rfl

theorem isNullish_undef : JSVal.undef.isNullish = true := rfl

theorem isEmptyStr_undef : JSVal.undef.isEmptyStr = false := rfl

theorem jsLtOne_undef : jsLtOne JSVal.undef = false := rfl

/-- C5: The numeric string "0" normalizes to 0 under the tolerant coercion
(`orDefault`) instead of falling through to the default — concretely,
`computeTotals` on `{baseRate:"0"}` uses base rate 0; and in
`applyDefaults` only `null`, `undefined` and the empty string trigger
defaulting of the six rate fields: every other value (an explicit numeric 0
or the string "0" included) is preserved unchanged. -/
theorem claim_C5_zero_not_defaulted (v : JSVal)
    (hv : v.isNullish = false) (he : v.isEmptyStr = false) :
    (∀ d : JNum, orDefault (.str "0") d = .fin 0) ∧
    ((computeTotals (.obj [("baseRate", .str "0")])).baseRate = .fin 0) ∧
    ((applyDefaults (.obj [("baseRate", v)])).get "baseRate" = v) ∧
    ((applyDefaults (.obj [("additionalHoodRate", v)])).get
      "additionalHoodRate" = v) ∧
    ((applyDefaults (.obj [("additionalFanRate", v)])).get
      "additionalFanRate" = v) ∧
    ((applyDefaults (.obj [("stdFilterRate", v)])).get "stdFilterRate" = v) ∧
    ((applyDefaults (.obj [("nonStdFilterRate", v)])).get
      "nonStdFilterRate" = v) ∧
    ((applyDefaults (.obj [("fuelSurcharge", v)])).get "fuelSurcharge" = v) ∧
    ((applyDefaults (.obj [("baseRate", .null)])).get "baseRate" =
      .num (.fin defaultBaseRate)) ∧
    ((applyDefaults (.obj [("baseRate", .undef)])).get "baseRate" =
      .num (.fin defaultBaseRate)) ∧
    ((applyDefaults (.obj [("baseRate", .str "")])).get "baseRate" =
      .num (.fin defaultBaseRate)) := by
  have h0 : ∀ d : JNum, orDefault (.str "0") d = .fin 0 := by
    intro d
    have hn : (JSVal.str "0").toNumber = JNum.fin 0 := by
      have h1 : (JSVal.str "0").toNumber =
          JNum.clamp ((digitsToNat ['0'] : ℕ) : ℚ) := rfl
      have h2 : digitsToNat ['0'] = 0 := rfl
      rw [h1, h2, Nat.cast_zero]
      exact JNum.clamp_small (by norm_num) (by norm_num)
    simp [orDefault, hn, JNum.isFinite]
  have h1 : (computeTotals (.obj [("baseRate", .str "0")])).baseRate =
      .fin 0 := by
    have : (computeTotals (.obj [("baseRate", .str "0")])).baseRate =
        orDefault (.str "0") (.fin defaultBaseRate) := rfl
    rw [this, h0]
  refine ⟨h0, h1, ?_, ?_, ?_, ?_, ?_, ?_, rfl, rfl, rfl⟩ <;>
    simp [applyDefaults, JSVal.isObjLike, jsToSpread, normalizeFields_singleton,
      JSVal.get, getVal_clampInitQty, getVal_objSet, getVal_setDefault,
      getVal_singleton, hv, he, isNullish_undef, isEmptyStr_undef, jsLtOne_undef]

/-- Witness for C5: an explicit numeric 0 and the string "0" are both
preserved, not replaced by the 723 default. -/
theorem claim_C5_witness :
    (applyDefaults (.obj [("baseRate", JSVal.num (.fin 0))])).get "baseRate" =
      JSVal.num (.fin 0) ∧
    (applyDefaults (.obj [("baseRate", JSVal.str "0")])).get "baseRate" =
      JSVal.str "0" :=
  ⟨(claim_C5_zero_not_defaulted (JSVal.num (.fin 0)) rfl rfl).2.2.1,
   (claim_C5_zero_not_defaulted (JSVal.str "0") rfl (by decide)).2.2.1⟩

/-! ### Claim theorems: the count-change effect (C1) -/

theorem getD_setQtyAt_self (items : List JSVal) (i : ℕ) (q : ℚ)
    (h : i < items.length) :
    ((setQtyAt items i q).getD i .undef).get "qty" = .num (.fin q) := by
  unfold setQtyAt
  rw [List.getD_eq_getElem?_getD, List.getElem?_set_self h]
  simp only [Option.getD_some]
  show getVal (objSet _ "qty" _) "qty" = _
  exact getVal_objSet_self _ _ _

theorem getD_setQtyAt_ne (items : List JSVal) (i j : ℕ) (q : ℚ)
    (hne : i ≠ j) :
    (setQtyAt items j q).getD i .undef = items.getD i .undef := by
  unfold setQtyAt
  rw [List.getD_eq_getElem?_getD, List.getD_eq_getElem?_getD,
    List.getElem?_set_ne (Ne.symm hne)]
  simp [List.getD_eq_getElem?_getD]

/-- C1 (amended): the count-change effect always overwrites the
"Additional Hood" / "Additional Fan" quantities with max(hoods−1, 0) and
max(fans−1, 0), regardless of `pricingTouched`; the touched flag only
prevents the effect from overwriting `stdFilterQty` and
`filterExchangeQty`, which otherwise mirror the filter count. -/
theorem claim_C1_amended (s : FormState) :
    (s.pricingTouched = true →
      (countChangeStep s).stdFilterQty = s.stdFilterQty ∧
      (countChangeStep s).filterExchangeQty = s.filterExchangeQty) ∧
    (s.pricingTouched = false →
      (countChangeStep s).stdFilterQty = s.filters ∧
      (countChangeStep s).filterExchangeQty = s.filters) ∧
    (∀ i, (normItemsOf s).findIdx? (descrMatches "additional hood") = some i →
      ((countChangeStep s).additionalItems.getD i .undef).get "qty" =
        .num (.fin (max (s.hoods - 1) 0))) ∧
    (∀ j, (normItemsOf s).findIdx? (descrMatches "additional fan") = some j →
      ((countChangeStep s).additionalItems.getD j .undef).get "qty" =
        .num (.fin (max (s.fans - 1) 0))) := by
  refine ⟨fun h => ?_, fun h => ?_, fun i hi => ?_, fun j hj => ?_⟩
  · simp [countChangeStep, h]
  · simp [countChangeStep, h]
  · obtain ⟨hlen, hp, -⟩ := List.findIdx?_eq_some_iff_getElem.mp hi
    simp only [countChangeStep, hi]
    cases hf : (normItemsOf s).findIdx? (descrMatches "additional fan") with
    | none => exact getD_setQtyAt_self _ _ _ hlen
    | some j =>
      obtain ⟨hlenF, hpF, -⟩ := List.findIdx?_eq_some_iff_getElem.mp hf
      have hij : i ≠ j := by
        intro he
        subst he
        unfold descrMatches at hp hpF
        rw [decide_eq_true_eq] at hp hpF
        rw [hp] at hpF
        exact absurd hpF (by decide)
      rw [getD_setQtyAt_ne _ _ _ _ hij]
      exact getD_setQtyAt_self _ _ _ hlen
  · obtain ⟨hlenF, hpF, -⟩ := List.findIdx?_eq_some_iff_getElem.mp hj
    simp only [countChangeStep, hj]
    cases hh : (normItemsOf s).findIdx? (descrMatches "additional hood") with
    | none => exact getD_setQtyAt_self _ _ _ hlenF
    | some i =>
      refine getD_setQtyAt_self _ _ _ ?_
      simpa [setQtyAt] using hlenF

/-- The concrete form state of the C1 scenario: pricing already touched,
hood count changed 1 → 5, the "Additional Hood" item still carrying qty 0. -/
def stateC1 : FormState :=
  { hoods := 5
    fans := 1
    filters := 0
    cleaningFrequency := ""
    additionalItems :=
      [.obj [("description", .str "Additional Hood"),
             ("qty", .num (.fin 0)),
             ("rate", .num (.fin 203)),
             ("frequency", .str "")],
       .obj [("description", .str "Additional Fan"),
             ("qty", .num (.fin 0)),
             ("rate", .num (.fin 203)),
             ("frequency", .str "")]]
    stdFilterQty := 0
    filterExchangeQty := 0
    pricingTouched := true }

/-- Counterexample to C1 as stated: with `pricingTouched = true` and hoods
changed 1 → 5, the count-change step still changes the "Additional Hood"
quantity (from 0 to 4), so the step does not leave additional-item
quantities unchanged in touched states. -/
theorem claim_C1_counterexample :
    stateC1.pricingTouched = true ∧
    (stateC1.additionalItems.getD 0 .undef).get "qty" = .num (.fin 0) ∧
    ¬ (((countChangeStep stateC1).additionalItems.getD 0 .undef).get "qty" =
        (stateC1.additionalItems.getD 0 .undef).get "qty") := by
  have h0 : (stateC1.additionalItems.getD 0 .undef).get "qty" =
      .num (.fin 0) := rfl
  have h1 : ((countChangeStep stateC1).additionalItems.getD 0 .undef).get
      "qty" = .num (.fin (max ((5 : ℚ) - 1) 0)) := rfl
  have h2 : (max ((5 : ℚ) - 1) 0) = 4 := by norm_num
  refine ⟨rfl, h0, ?_⟩
  rw [h0, h1, h2]
  intro h
  injection h with h3
  injection h3 with h4
  norm_num at h4

/-- Witness for the amended C1 at the concrete touched state: the filter
quantity is frozen while the hood quantity is still re-derived. -/
theorem claim_C1_witness :
    (countChangeStep stateC1).stdFilterQty = stateC1.stdFilterQty ∧
    ((countChangeStep stateC1).additionalItems.getD 0 .undef).get "qty" =
      .num (.fin (max ((5 : ℚ) - 1) 0)) := by
  obtain ⟨h1, h2, h3, h4⟩ := claim_C1_amended stateC1
  exact ⟨(h1 rfl).1, h3 0 (by rfl)⟩

/-! ### Idempotence of applyDefaults (C4) -/

/-- The six rate-defaulting assignments of `applyDefaults`, in order. -/
def stageRates (l : Fields) : Fields :=
  setDefault (setDefault (setDefault (setDefault (setDefault (setDefault l
    "baseRate" defaultBaseRate)
    "additionalHoodRate" defaultAdditionalHoodRate)
    "additionalFanRate" defaultAdditionalFanRate)
    "stdFilterRate" defaultStdFilterRate)
    "nonStdFilterRate" defaultNonStdFilterRate)
    "fuelSurcharge" defaultFuelSurcharge

/-- `d.repairs = normalizeRepairs(d)`. -/
def stageRepairs (l : Fields) : Fields :=
  objSet l "repairs" (.arr (normalizeRepairs (.obj l)))

/-- `d.additionalItems = normalizeAdditionalItems(d)`. -/
def stageItems (l : Fields) : Fields :=
  objSet l "additionalItems" (.arr (normalizeAdditionalItems (.obj l)))

/-- The two initial-quantity clamps of `applyDefaults`, in order. -/
def stageClamps (l : Fields) : Fields :=
  clampInitQty (clampInitQty l "initialHoodQty") "initialFanQty"

/-- The whole field-list pipeline of `applyDefaults`'s object branch. -/
def applyStages (l : Fields) : Fields :=
  stageClamps (stageItems (stageRepairs (stageRates l)))

theorem applyDefaults_obj_eq (fs : Fields) :
    applyDefaults (.obj fs) = .obj (applyStages (normalizeFields fs)) := rfl

/-- A string value equal to its own trim. -/
def trimStableStr : JSVal → Bool
  | .str s => decide (jsTrim s = s)
  | _ => false

/-- The idempotence side condition on a draft: its `cleaningFrequency` and
`additionalFrequency`, whenever truthy, are strings equal to their own
trim. -/
def freqOk (d : JSVal) : Bool :=
  (!(d.get "cleaningFrequency").truthy ||
    trimStableStr (d.get "cleaningFrequency")) &&
  (!(d.get "additionalFrequency").truthy ||
    trimStableStr (d.get "additionalFrequency"))

/-- Frequency values that `normItem` maps to themselves, given the ambient
default frequency `F`. -/
def goodFreq (F w : JSVal) : Prop :=
  w = F ∨ ∃ t, w = .str t ∧ jsTrim t = t ∧ t ≠ ""

theorem jsTrim_idem (s : String) : jsTrim (jsTrim s) = jsTrim s := by
  have hdata : (jsTrim s).data =
      List.rdropWhile isJsSpace (s.data.dropWhile isJsSpace) := rfl
  show (⟨List.rdropWhile isJsSpace ((jsTrim s).data.dropWhile isJsSpace)⟩ :
      String) = jsTrim s
  rw [hdata]
  have h1 : List.dropWhile isJsSpace
      (List.rdropWhile isJsSpace (s.data.dropWhile isJsSpace)) =
      List.rdropWhile isJsSpace (s.data.dropWhile isJsSpace) := by
    rw [List.dropWhile_eq_self_iff]
    intro hl
    obtain ⟨t, ht⟩ :=
      List.rdropWhile_prefix isJsSpace (s.data.dropWhile isJsSpace)
    have hlen : 0 < (s.data.dropWhile isJsSpace).length := by
      rw [← ht, List.length_append]
      exact lt_of_lt_of_le hl (Nat.le_add_right _ _)
    have hq : (List.rdropWhile isJsSpace (s.data.dropWhile isJsSpace))[0]? =
        (s.data.dropWhile isJsSpace)[0]? := by
      conv_rhs => rw [← ht]
      exact (List.getElem?_append_left hl).symm
    rw [List.getElem?_eq_getElem hl, List.getElem?_eq_getElem hlen] at hq
    have hg := Option.some.inj hq
    simp only [List.get_eq_getElem]
    rw [hg]
    have := List.dropWhile_get_zero_not isJsSpace s.data hlen
    simpa [List.get_eq_getElem] using this
  rw [h1]
  have h2 : List.rdropWhile isJsSpace
      (List.rdropWhile isJsSpace (s.data.dropWhile isJsSpace)) =
      List.rdropWhile isJsSpace (s.data.dropWhile isJsSpace) := by
    rw [List.rdropWhile_eq_self_iff]
    intro hne
    exact List.rdropWhile_last_not _ _ hne
  rw [h2]
  exact congrArg String.mk hdata.symm

theorem map_id_of_forall {α : Type} (f : α → α) (l : List α)
    (h : ∀ x ∈ l, f x = x) : l.map f = l := by
  induction l with
  | nil => rfl
  | cons a t ih =>
    simp only [List.map_cons, h a (by simp)]
    rw [ih (fun x hx => h x (by simp [hx]))]

theorem setDefault_safe (l : Fields) (k : String) (dv : ℚ) :
    (getVal (setDefault l k dv) k).isNullish = false ∧
    (getVal (setDefault l k dv) k).isEmptyStr = false := by
  rw [getVal_setDefault, if_pos rfl]
  by_cases hc : (getVal l k).isNullish = true ∨ (getVal l k).isEmptyStr = true
  · rw [if_pos hc]
    exact ⟨rfl, rfl⟩
  · rw [if_neg hc]
    push_neg at hc
    simp only [Bool.not_eq_true] at hc
    exact hc

theorem setDefault_id_of_safe {l : Fields} {k : String} (dv : ℚ)
    (h1 : (getVal l k).isNullish = false)
    (h2 : (getVal l k).isEmptyStr = false) : setDefault l k dv = l := by
  unfold setDefault
  simp [h1, h2]

theorem jsLtOne_num_one : jsLtOne (.num (.fin 1)) = false := by
  have h : ¬ ((1 : ℚ) < 1) := lt_irrefl 1
  simp [jsLtOne, JSVal.toNumber, h]

theorem clampInitQty_safe (l : Fields) (k : String) :
    (getVal (clampInitQty l k) k).isNullish = false ∧
    jsLtOne (getVal (clampInitQty l k) k) = false := by
  rw [getVal_clampInitQty, if_pos rfl]
  by_cases hc : (getVal l k).isNullish = true ∨ jsLtOne (getVal l k) = true
  · rw [if_pos hc]
    exact ⟨rfl, jsLtOne_num_one⟩
  · rw [if_neg hc]
    push_neg at hc
    simp only [Bool.not_eq_true] at hc
    exact hc

theorem clampInitQty_id_of_safe {l : Fields} {k : String}
    (h1 : (getVal l k).isNullish = false)
    (h2 : jsLtOne (getVal l k) = false) : clampInitQty l k = l := by
  unfold clampInitQty
  simp [h1, h2]

theorem keysNodup_setDefault {l : Fields} (k : String) (dv : ℚ)
    (h : keysNodup l) : keysNodup (setDefault l k dv) := by
  simp only [setDefault]
  split
  · exact keysNodup_objSet _ _ h
  · exact h

theorem keysNodup_clampInitQty {l : Fields} (k : String)
    (h : keysNodup l) : keysNodup (clampInitQty l k) := by
  simp only [clampInitQty]
  split
  · exact keysNodup_objSet _ _ h
  · exact h

theorem keysNodup_applyStages {l : Fields} (h : keysNodup l) :
    keysNodup (applyStages l) := by
  unfold applyStages stageClamps stageItems stageRepairs stageRates
  exact keysNodup_clampInitQty _ (keysNodup_clampInitQty _
    (keysNodup_objSet _ _ (keysNodup_objSet _ _
      (keysNodup_setDefault _ _ (keysNodup_setDefault _ _
        (keysNodup_setDefault _ _ (keysNodup_setDefault _ _
          (keysNodup_setDefault _ _ (keysNodup_setDefault _ _ h)))))))))

theorem containsKey_of_getVal_ne_undef {l : Fields} {k : String}
    (h : getVal l k ≠ .undef) : containsKey l k = true := by
  by_contra hc
  have hn := lookupLast_eq_none_of_not_contains (l := l) (k := k)
    (by simpa using hc)
  exact h (by simp [getVal, hn])

theorem normRepair_fixed (s : String) (q : ℚ) :
    normRepair (.obj [("description", .str s), ("amount", .num (.fin q))]) =
      .obj [("description", .str s), ("amount", .num (.fin q))] := by
  unfold normRepair
  simp [JSVal.get, getVal, lookupLast, JSVal.coalesce, JSVal.isNullish,
    jsToString, safeNum, JSVal.toNumber, JNum.isFinite]

theorem normRepair_idem (x : JSVal) :
    normRepair (normRepair x) = normRepair x := by
  obtain ⟨q, hq⟩ : ∃ q, safeNum (x.get "amount") = .fin q :=
    ⟨_, JNum.eq_fin_toQ (safeNum_isFinite _)⟩
  have h1 : normRepair x =
      .obj [("description",
        .str (jsToString ((x.get "description").coalesce (.str "")))),
        ("amount", .num (.fin q))] := by
    unfold normRepair
    rw [hq]
  rw [h1]
  exact normRepair_fixed _ _

theorem normRepairs_output_fixed (d : JSVal) :
    ∀ y ∈ normalizeRepairs d, normRepair y = y := by
  have hleg : ∀ y ∈ normalizeRepairsLegacy d, normRepair y = y := by
    intro y hy
    unfold normalizeRepairsLegacy at hy
    split at hy <;> rw [List.mem_singleton] at hy <;> subst hy
    · obtain ⟨q, hq⟩ : ∃ q, safeNum (d.get "repairRate") = .fin q :=
        ⟨_, JNum.eq_fin_toQ (safeNum_isFinite _)⟩
      rw [hq]
      exact normRepair_fixed _ _
    · exact normRepair_fixed "" 0
  cases hd : d.get "repairs" with
  | arr rs =>
    intro y hy
    have heq : normalizeRepairs d =
        if rs.isEmpty = true then normalizeRepairsLegacy d
        else rs.map normRepair := by
      unfold normalizeRepairs
      rw [hd]
    rw [heq] at hy
    by_cases hrs : rs.isEmpty = true
    · rw [if_pos hrs] at hy
      exact hleg y hy
    · rw [if_neg hrs] at hy
      obtain ⟨x, -, rfl⟩ := List.mem_map.mp hy
      exact normRepair_idem x
  | undef =>
    have heq : normalizeRepairs d = normalizeRepairsLegacy d := by
      unfold normalizeRepairs
      rw [hd]
    rw [heq]
    exact hleg
  | null =>
    have heq : normalizeRepairs d = normalizeRepairsLegacy d := by
      unfold normalizeRepairs
      rw [hd]
    rw [heq]
    exact hleg
  | bool b =>
    have heq : normalizeRepairs d = normalizeRepairsLegacy d := by
      unfold normalizeRepairs
      rw [hd]
    rw [heq]
    exact hleg
  | num n =>
    have heq : normalizeRepairs d = normalizeRepairsLegacy d := by
      unfold normalizeRepairs
      rw [hd]
    rw [heq]
    exact hleg
  | str s =>
    have heq : normalizeRepairs d = normalizeRepairsLegacy d := by
      unfold normalizeRepairs
      rw [hd]
    rw [heq]
    exact hleg
  | obj fs =>
    have heq : normalizeRepairs d = normalizeRepairsLegacy d := by
      unfold normalizeRepairs
      rw [hd]
    rw [heq]
    exact hleg

theorem normalizeRepairs_map_fixed (d : JSVal) :
    (normalizeRepairs d).map normRepair = normalizeRepairs d :=
  map_id_of_forall _ _ (normRepairs_output_fixed d)

theorem trimStableStr_spec {F : JSVal} (hF : trimStableStr F = true) :
    ∃ f, F = .str f ∧ jsTrim f = f := by
  cases F with
  | str f => exact ⟨f, rfl, by simpa [trimStableStr] using hF⟩
  | undef => simp [trimStableStr] at hF
  | null => simp [trimStableStr] at hF
  | bool b => simp [trimStableStr] at hF
  | num n => simp [trimStableStr] at hF
  | arr xs => simp [trimStableStr] at hF
  | obj fs => simp [trimStableStr] at hF

theorem normItem_fixed (F : JSVal) (hF : trimStableStr F = true)
    (s : String) (q r : ℚ) (w : JSVal) (hw : goodFreq F w) :
    normItem F (.obj [("description", .str s), ("qty", .num (.fin q)),
      ("rate", .num (.fin r)), ("frequency", w)]) =
    .obj [("description", .str s), ("qty", .num (.fin q)),
      ("rate", .num (.fin r)), ("frequency", w)] := by
  have hcomp : normItem F (.obj [("description", .str s),
      ("qty", .num (.fin q)), ("rate", .num (.fin r)), ("frequency", w)]) =
      .obj [("description", .str s), ("qty", .num (.fin q)),
        ("rate", .num (.fin r)),
        ("frequency",
          if jsTrim (jsToString (w.coalesce F)) = "" then F
          else .str (jsTrim (jsToString (w.coalesce F))))] := rfl
  rw [hcomp]
  have hfreq : (if jsTrim (jsToString (w.coalesce F)) = "" then F
      else .str (jsTrim (jsToString (w.coalesce F)))) = w := by
    rcases hw with rfl | ⟨t, rfl, htt, hne⟩
    · obtain ⟨f, hFs, hft⟩ := trimStableStr_spec hF
      rw [hFs]
      have hco : (JSVal.str f).coalesce (JSVal.str f) = .str f := rfl
      have hjs : jsToString (.str f) = f := rfl
      rw [hco, hjs, hft]
      by_cases hf : f = ""
      · rw [if_pos hf]
      · rw [if_neg hf]
    · have hco : (JSVal.str t).coalesce F = .str t := rfl
      have hjs : jsToString (.str t) = t := rfl
      rw [hco, hjs, htt, if_neg hne]
  rw [hfreq]

theorem normItem_shape (F : JSVal) (hF : trimStableStr F = true) (x : JSVal) :
    ∃ s q r w, normItem F x =
      .obj [("description", .str s), ("qty", .num (.fin q)),
        ("rate", .num (.fin r)), ("frequency", w)] ∧ goodFreq F w := by
  obtain ⟨q, hq⟩ : ∃ q, safeNum (x.get "qty") = .fin q :=
    ⟨_, JNum.eq_fin_toQ (safeNum_isFinite _)⟩
  obtain ⟨r, hr⟩ : ∃ r, orDefault (x.get "rate")
      (.fin defaultAdditionalHoodRate) = .fin r :=
    ⟨_, JNum.eq_fin_toQ (orDefault_fin_isFinite _ _)⟩
  by_cases ht : jsTrim (jsToString ((x.get "frequency").coalesce F)) = ""
  · refine ⟨jsToString ((x.get "description").coalesce (.str "")), q, r, F,
      ?_, Or.inl rfl⟩
    unfold normItem
    rw [hq, hr]
    simp [ht]
  · refine ⟨jsToString ((x.get "description").coalesce (.str "")), q, r,
      .str (jsTrim (jsToString ((x.get "frequency").coalesce F))), ?_,
      Or.inr ⟨_, rfl, jsTrim_idem _, ht⟩⟩
    unfold normItem
    rw [hq, hr]
    simp [ht]

theorem normItem_idem (F : JSVal) (hF : trimStableStr F = true) (x : JSVal) :
    normItem F (normItem F x) = normItem F x := by
  obtain ⟨s, q, r, w, hx, hw⟩ := normItem_shape F hF x
  rw [hx]
  exact normItem_fixed F hF s q r w hw

theorem goodFreq_jsOr {af cf : JSVal} (F : JSVal)
    (hcf : cf.truthy = true → trimStableStr cf = true)
    (haf : af.truthy = true → trimStableStr af = true)
    :
    goodFreq F (jsOr af (jsOr cf F)) := by
  unfold jsOr
  by_cases ha : af.truthy = true
  · rw [if_pos ha]
    obtain ⟨t, rfl, htt⟩ := trimStableStr_spec (haf ha)
    refine Or.inr ⟨t, rfl, htt, ?_⟩
    simpa [JSVal.truthy] using ha
  · rw [if_neg ha]
    by_cases hc : cf.truthy = true
    · rw [if_pos hc]
      obtain ⟨t, rfl, htt⟩ := trimStableStr_spec (hcf hc)
      refine Or.inr ⟨t, rfl, htt, ?_⟩
      simpa [JSVal.truthy] using hc
    · rw [if_neg hc]
      exact Or.inl rfl

theorem mem_ite_isEmpty {its ph : List JSVal} {y : JSVal}
    (hy : y ∈ (if its.isEmpty = true then ph else its)) :
    y ∈ ph ∨ y ∈ its := by
  split at hy
  · exact Or.inl hy
  · exact Or.inr hy

theorem normItemsLegacy_output_fixed (d F : JSVal)
    (hF : trimStableStr F = true)
    (hcf : (d.get "cleaningFrequency").truthy = true →
      trimStableStr (d.get "cleaningFrequency") = true)
    (haf : (d.get "additionalFrequency").truthy = true →
      trimStableStr (d.get "additionalFrequency") = true) :
    ∀ y ∈ normalizeAdditionalItemsLegacy d F, normItem F y = y := by
  intro y hy
  simp only [normalizeAdditionalItemsLegacy] at hy
  have hhood : ∀ z ∈ (if ¬ (d.get "additionalHoodQty").isNullish = true ∨
      ¬ (d.get "additionalHoodRate").isNullish = true then
        [JSVal.obj
          [("description", .str "Additional Hood"),
           ("qty", .num (safeNum (d.get "additionalHoodQty"))),
           ("rate", .num (orDefault (d.get "additionalHoodRate")
              (.fin defaultAdditionalHoodRate))),
           ("frequency", jsOr (d.get "additionalFrequency")
              (jsOr (d.get "cleaningFrequency") F))]]
       else []), normItem F z = z := by
    intro z hz
    split at hz
    · rw [List.mem_singleton] at hz
      subst hz
      obtain ⟨q, hq⟩ : ∃ q, safeNum (d.get "additionalHoodQty") = .fin q :=
        ⟨_, JNum.eq_fin_toQ (safeNum_isFinite _)⟩
      obtain ⟨r, hr⟩ : ∃ r, orDefault (d.get "additionalHoodRate")
          (.fin defaultAdditionalHoodRate) = .fin r :=
        ⟨_, JNum.eq_fin_toQ (orDefault_fin_isFinite _ _)⟩
      rw [hq, hr]
      exact normItem_fixed F hF _ q r _ (goodFreq_jsOr F hcf haf)
    · exact absurd hz (List.not_mem_nil z)
  have hfan : ∀ z ∈ (if ¬ (d.get "additionalFanQty").isNullish = true ∨
      ¬ (d.get "additionalFanRate").isNullish = true then
        [JSVal.obj
          [("description", .str "Additional Fan"),
           ("qty", .num (safeNum (d.get "additionalFanQty"))),
           ("rate", .num (orDefault (d.get "additionalFanRate")
              (.fin defaultAdditionalFanRate))),
           ("frequency", jsOr (d.get "additionalFrequency")
              (jsOr (d.get "cleaningFrequency") F))]]
       else []), normItem F z = z := by
    intro z hz
    split at hz
    · rw [List.mem_singleton] at hz
      subst hz
      obtain ⟨q, hq⟩ : ∃ q, safeNum (d.get "additionalFanQty") = .fin q :=
        ⟨_, JNum.eq_fin_toQ (safeNum_isFinite _)⟩
      obtain ⟨r, hr⟩ : ∃ r, orDefault (d.get "additionalFanRate")
          (.fin defaultAdditionalFanRate) = .fin r :=
        ⟨_, JNum.eq_fin_toQ (orDefault_fin_isFinite _ _)⟩
      rw [hq, hr]
      exact normItem_fixed F hF _ q r _ (goodFreq_jsOr F hcf haf)
    · exact absurd hz (List.not_mem_nil z)
  rcases mem_ite_isEmpty hy with h | h
  · rw [List.mem_singleton] at h
    subst h
    exact normItem_fixed F hF _ 0 defaultAdditionalHoodRate F (Or.inl rfl)
  · rcases List.mem_append.mp h with h2 | h2
    · exact hhood y h2
    · exact hfan y h2

theorem trimStableStr_emptyStr : trimStableStr (.str "") = true := by decide

theorem normItems_output_fixed (d : JSVal)
    (hcf : (d.get "cleaningFrequency").truthy = true →
      trimStableStr (d.get "cleaningFrequency") = true)
    (haf : (d.get "additionalFrequency").truthy = true →
      trimStableStr (d.get "additionalFrequency") = true) :
    ∀ y ∈ normalizeAdditionalItems d,
      normItem (jsOr (d.get "cleaningFrequency") (.str "")) y = y := by
  have hF : trimStableStr (jsOr (d.get "cleaningFrequency") (.str "")) =
      true := by
    unfold jsOr
    by_cases hc : (d.get "cleaningFrequency").truthy = true
    · rw [if_pos hc]
      exact hcf hc
    · rw [if_neg hc]
      exact trimStableStr_emptyStr
  cases hd : d.get "additionalItems" with
  | arr its =>
    intro y hy
    have heq : normalizeAdditionalItems d =
        if its.isEmpty = true then
          normalizeAdditionalItemsLegacy d
            (jsOr (d.get "cleaningFrequency") (.str ""))
        else its.map
          (normItem (jsOr (d.get "cleaningFrequency") (.str ""))) := by
      unfold normalizeAdditionalItems
      rw [hd]
    rw [heq] at hy
    by_cases hits : its.isEmpty = true
    · rw [if_pos hits] at hy
      exact normItemsLegacy_output_fixed d _ hF hcf haf y hy
    · rw [if_neg hits] at hy
      obtain ⟨x, -, rfl⟩ := List.mem_map.mp hy
      exact normItem_idem _ hF x
  | undef =>
    have heq : normalizeAdditionalItems d = normalizeAdditionalItemsLegacy d
        (jsOr (d.get "cleaningFrequency") (.str "")) := by
      unfold normalizeAdditionalItems
      rw [hd]
    rw [heq]
    exact normItemsLegacy_output_fixed d _ hF hcf haf
  | null =>
    have heq : normalizeAdditionalItems d = normalizeAdditionalItemsLegacy d
        (jsOr (d.get "cleaningFrequency") (.str "")) := by
      unfold normalizeAdditionalItems
      rw [hd]
    rw [heq]
    exact normItemsLegacy_output_fixed d _ hF hcf haf
  | bool b =>
    have heq : normalizeAdditionalItems d = normalizeAdditionalItemsLegacy d
        (jsOr (d.get "cleaningFrequency") (.str "")) := by
      unfold normalizeAdditionalItems
      rw [hd]
    rw [heq]
    exact normItemsLegacy_output_fixed d _ hF hcf haf
  | num n =>
    have heq : normalizeAdditionalItems d = normalizeAdditionalItemsLegacy d
        (jsOr (d.get "cleaningFrequency") (.str "")) := by
      unfold normalizeAdditionalItems
      rw [hd]
    rw [heq]
    exact normItemsLegacy_output_fixed d _ hF hcf haf
  | str s =>
    have heq : normalizeAdditionalItems d = normalizeAdditionalItemsLegacy d
        (jsOr (d.get "cleaningFrequency") (.str "")) := by
      unfold normalizeAdditionalItems
      rw [hd]
    rw [heq]
    exact normItemsLegacy_output_fixed d _ hF hcf haf
  | obj fs =>
    have heq : normalizeAdditionalItems d = normalizeAdditionalItemsLegacy d
        (jsOr (d.get "cleaningFrequency") (.str "")) := by
      unfold normalizeAdditionalItems
      rw [hd]
    rw [heq]
    exact normItemsLegacy_output_fixed d _ hF hcf haf

theorem normalizeAdditionalItems_map_fixed (d : JSVal)
    (hcf : (d.get "cleaningFrequency").truthy = true →
      trimStableStr (d.get "cleaningFrequency") = true)
    (haf : (d.get "additionalFrequency").truthy = true →
      trimStableStr (d.get "additionalFrequency") = true) :
    (normalizeAdditionalItems d).map
      (normItem (jsOr (d.get "cleaningFrequency") (.str ""))) =
      normalizeAdditionalItems d :=
  map_id_of_forall _ _ (normItems_output_fixed d hcf haf)

theorem applyStages_idem (l : Fields) (hnd : keysNodup l)
    (hcf : (getVal l "cleaningFrequency").truthy = true →
      trimStableStr (getVal l "cleaningFrequency") = true)
    (haf : (getVal l "additionalFrequency").truthy = true →
      trimStableStr (getVal l "additionalFrequency") = true) :
    applyStages (applyStages l) = applyStages l := by
  have hndM : keysNodup (applyStages l) := keysNodup_applyStages hnd
  have hb1 : getVal (applyStages l) "baseRate" =
      getVal (setDefault l "baseRate" defaultBaseRate) "baseRate" := by
    simp [applyStages, stageClamps, stageItems, stageRepairs, stageRates,
      getVal_clampInitQty, getVal_objSet, getVal_setDefault]
  have hb2 : getVal (applyStages l) "additionalHoodRate" =
      getVal (setDefault l "additionalHoodRate" defaultAdditionalHoodRate)
        "additionalHoodRate" := by
    simp [applyStages, stageClamps, stageItems, stageRepairs, stageRates,
      getVal_clampInitQty, getVal_objSet, getVal_setDefault]
  have hb3 : getVal (applyStages l) "additionalFanRate" =
      getVal (setDefault l "additionalFanRate" defaultAdditionalFanRate)
        "additionalFanRate" := by
    simp [applyStages, stageClamps, stageItems, stageRepairs, stageRates,
      getVal_clampInitQty, getVal_objSet, getVal_setDefault]
  have hb4 : getVal (applyStages l) "stdFilterRate" =
      getVal (setDefault l "stdFilterRate" defaultStdFilterRate)
        "stdFilterRate" := by
    simp [applyStages, stageClamps, stageItems, stageRepairs, stageRates,
      getVal_clampInitQty, getVal_objSet, getVal_setDefault]
  have hb5 : getVal (applyStages l) "nonStdFilterRate" =
      getVal (setDefault l "nonStdFilterRate" defaultNonStdFilterRate)
        "nonStdFilterRate" := by
    simp [applyStages, stageClamps, stageItems, stageRepairs, stageRates,
      getVal_clampInitQty, getVal_objSet, getVal_setDefault]
  have hb6 : getVal (applyStages l) "fuelSurcharge" =
      getVal (setDefault l "fuelSurcharge" defaultFuelSurcharge)
        "fuelSurcharge" := by
    simp [applyStages, stageClamps, stageItems, stageRepairs, stageRates,
      getVal_clampInitQty, getVal_objSet, getVal_setDefault]
  have hs1 := setDefault_safe l "baseRate" defaultBaseRate
  rw [← hb1] at hs1
  have hs2 := setDefault_safe l "additionalHoodRate" defaultAdditionalHoodRate
  rw [← hb2] at hs2
  have hs3 := setDefault_safe l "additionalFanRate" defaultAdditionalFanRate
  rw [← hb3] at hs3
  have hs4 := setDefault_safe l "stdFilterRate" defaultStdFilterRate
  rw [← hb4] at hs4
  have hs5 := setDefault_safe l "nonStdFilterRate" defaultNonStdFilterRate
  rw [← hb5] at hs5
  have hs6 := setDefault_safe l "fuelSurcharge" defaultFuelSurcharge
  rw [← hb6] at hs6
  have hRates : stageRates (applyStages l) = applyStages l := by
    unfold stageRates
    rw [setDefault_id_of_safe _ hs1.1 hs1.2,
      setDefault_id_of_safe _ hs2.1 hs2.2,
      setDefault_id_of_safe _ hs3.1 hs3.2,
      setDefault_id_of_safe _ hs4.1 hs4.2,
      setDefault_id_of_safe _ hs5.1 hs5.2,
      setDefault_id_of_safe _ hs6.1 hs6.2]
  have hrepget : getVal (applyStages l) "repairs" =
      .arr (normalizeRepairs (.obj (stageRates l))) := by
    simp [applyStages, stageClamps, stageItems, stageRepairs,
      getVal_clampInitQty, getVal_objSet]
  have hrepfix : normalizeRepairs (.obj (applyStages l)) =
      normalizeRepairs (.obj (stageRates l)) := by
    have heq : normalizeRepairs (.obj (applyStages l)) =
        if (normalizeRepairs (.obj (stageRates l))).isEmpty = true then
          normalizeRepairsLegacy (.obj (applyStages l))
        else (normalizeRepairs (.obj (stageRates l))).map normRepair := by
      conv_lhs => unfold normalizeRepairs
      rw [show (JSVal.obj (applyStages l)).get "repairs" =
        .arr (normalizeRepairs (.obj (stageRates l))) from hrepget]
    rw [heq]
    have hne : (normalizeRepairs (.obj (stageRates l))).isEmpty = false := by
      cases hR : normalizeRepairs (.obj (stageRates l)) with
      | nil => exact absurd hR (normalizeRepairs_ne_nil _)
      | cons a t => rfl
    rw [hne, if_neg Bool.false_ne_true]
    exact normalizeRepairs_map_fixed _
  have hRepairs : stageRepairs (applyStages l) = applyStages l := by
    unfold stageRepairs
    rw [hrepfix]
    refine objSet_self_of_getVal hndM hrepget
      (containsKey_of_getVal_ne_undef ?_)
    rw [hrepget]
    intro hfalse
    cases hfalse
  have hcfM : getVal (applyStages l) "cleaningFrequency" =
      getVal l "cleaningFrequency" := by
    simp [applyStages, stageClamps, stageItems, stageRepairs, stageRates,
      getVal_clampInitQty, getVal_objSet, getVal_setDefault]
  have hcfA7 : getVal (stageRepairs (stageRates l)) "cleaningFrequency" =
      getVal l "cleaningFrequency" := by
    simp [stageRepairs, stageRates, getVal_objSet, getVal_setDefault]
  have hafA7 : getVal (stageRepairs (stageRates l)) "additionalFrequency" =
      getVal l "additionalFrequency" := by
    simp [stageRepairs, stageRates, getVal_objSet, getVal_setDefault]
  have hitemsget : getVal (applyStages l) "additionalItems" =
      .arr (normalizeAdditionalItems (.obj (stageRepairs (stageRates l)))) := by
    simp [applyStages, stageClamps, stageItems, getVal_clampInitQty,
      getVal_objSet]
  have hcf7 : ((JSVal.obj (stageRepairs (stageRates l))).get
      "cleaningFrequency").truthy = true →
      trimStableStr ((JSVal.obj (stageRepairs (stageRates l))).get
        "cleaningFrequency") = true := by
    intro ht
    rw [show (JSVal.obj (stageRepairs (stageRates l))).get
      "cleaningFrequency" = getVal l "cleaningFrequency" from hcfA7] at ht ⊢
    exact hcf ht
  have haf7 : ((JSVal.obj (stageRepairs (stageRates l))).get
      "additionalFrequency").truthy = true →
      trimStableStr ((JSVal.obj (stageRepairs (stageRates l))).get
        "additionalFrequency") = true := by
    intro ht
    rw [show (JSVal.obj (stageRepairs (stageRates l))).get
      "additionalFrequency" = getVal l "additionalFrequency" from hafA7] at ht ⊢
    exact haf ht
  have hitemsfix : normalizeAdditionalItems (.obj (applyStages l)) =
      normalizeAdditionalItems (.obj (stageRepairs (stageRates l))) := by
    have heq : normalizeAdditionalItems (.obj (applyStages l)) =
        if (normalizeAdditionalItems
            (.obj (stageRepairs (stageRates l)))).isEmpty = true then
          normalizeAdditionalItemsLegacy (.obj (applyStages l))
            (jsOr ((JSVal.obj (applyStages l)).get "cleaningFrequency")
              (.str ""))
        else (normalizeAdditionalItems
            (.obj (stageRepairs (stageRates l)))).map
          (normItem (jsOr ((JSVal.obj (applyStages l)).get
            "cleaningFrequency") (.str ""))) := by
      conv_lhs => unfold normalizeAdditionalItems
      rw [show (JSVal.obj (applyStages l)).get "additionalItems" =
        .arr (normalizeAdditionalItems (.obj (stageRepairs (stageRates l))))
        from hitemsget]
    rw [heq]
    have hne : (normalizeAdditionalItems
        (.obj (stageRepairs (stageRates l)))).isEmpty = false := by
      cases hA : normalizeAdditionalItems (.obj (stageRepairs (stageRates l)))
        with
      | nil => exact absurd hA (normalizeAdditionalItems_ne_nil _)
      | cons a t => rfl
    rw [hne, if_neg Bool.false_ne_true]
    rw [show (JSVal.obj (applyStages l)).get "cleaningFrequency" =
      (JSVal.obj (stageRepairs (stageRates l))).get "cleaningFrequency" from
      hcfM.trans hcfA7.symm]
    exact normalizeAdditionalItems_map_fixed _ hcf7 haf7
  have hItems : stageItems (applyStages l) = applyStages l := by
    unfold stageItems
    rw [hitemsfix]
    refine objSet_self_of_getVal hndM hitemsget
      (containsKey_of_getVal_ne_undef ?_)
    rw [hitemsget]
    intro hfalse
    cases hfalse
  have hih : getVal (applyStages l) "initialHoodQty" =
      getVal (clampInitQty (stageItems (stageRepairs (stageRates l)))
        "initialHoodQty") "initialHoodQty" := by
    simp [applyStages, stageClamps, getVal_clampInitQty]
  have hsh := clampInitQty_safe (stageItems (stageRepairs (stageRates l)))
    "initialHoodQty"
  rw [← hih] at hsh
  have hif : getVal (applyStages l) "initialFanQty" =
      getVal (clampInitQty (clampInitQty (stageItems (stageRepairs
        (stageRates l))) "initialHoodQty") "initialFanQty")
        "initialFanQty" := rfl
  have hsf := clampInitQty_safe (clampInitQty (stageItems (stageRepairs
    (stageRates l))) "initialHoodQty") "initialFanQty"
  rw [← hif] at hsf
  have hClamps : stageClamps (applyStages l) = applyStages l := by
    unfold stageClamps
    rw [clampInitQty_id_of_safe hsh.1 hsh.2,
      clampInitQty_id_of_safe hsf.1 hsf.2]
  show stageClamps (stageItems (stageRepairs (stageRates (applyStages l)))) =
    applyStages l
  rw [hRates, hRepairs, hItems, hClamps]

/-- C4 (amended): `applyDefaults` is idempotent on every object draft whose
`cleaningFrequency` and `additionalFrequency` fields, whenever truthy, are
strings equal to their own trim.  (On non-object inputs it is not
idempotent — see the counterexample — and a truthy non-string or untrimmed
frequency value also breaks idempotence.) -/
theorem claim_C4_idempotent_on_objects (fs : Fields)
    (hfreq : freqOk (.obj fs) = true) :
    applyDefaults (applyDefaults (.obj fs)) = applyDefaults (.obj fs) := by
  have hfs := hfreq
  simp only [freqOk, Bool.and_eq_true, Bool.or_eq_true,
    Bool.not_eq_true'] at hfs
  have hget : ∀ k, (JSVal.obj fs).get k = getVal (normalizeFields fs) k := by
    intro k
    show getVal fs k = getVal (normalizeFields fs) k
    rw [getVal_normalizeFields]
  have hcf : (getVal (normalizeFields fs) "cleaningFrequency").truthy =
      true → trimStableStr (getVal (normalizeFields fs)
        "cleaningFrequency") = true := by
    rw [← hget]
    intro ht
    rcases hfs.1 with h | h
    · rw [ht] at h
      cases h
    · exact h
  have haf : (getVal (normalizeFields fs) "additionalFrequency").truthy =
      true → trimStableStr (getVal (normalizeFields fs)
        "additionalFrequency") = true := by
    rw [← hget]
    intro ht
    rcases hfs.2 with h | h
    · rw [ht] at h
      cases h
    · exact h
  rw [applyDefaults_obj_eq fs,
    applyDefaults_obj_eq (applyStages (normalizeFields fs)),
    normalizeFields_of_keysNodup
      (keysNodup_applyStages (keysNodup_normalizeFields fs))]
  exact congrArg JSVal.obj
    (applyStages_idem (normalizeFields fs) (keysNodup_normalizeFields fs)
      hcf haf)

/-- Witness for the amended C4 at the empty object. -/
theorem claim_C4_witness :
    applyDefaults (applyDefaults (.obj [])) = applyDefaults (.obj []) :=
  claim_C4_idempotent_on_objects [] (by decide)

/-- Counterexample to C4 as stated: `applyDefaults` is not idempotent on the
non-object input `null` — the first application returns only the six default
rates, the second adds `repairs`, `additionalItems` and the initial
quantities. -/
theorem claim_C4_counterexample :
    applyDefaults (applyDefaults .null) ≠ applyDefaults .null := by
  intro h
  have h2 := congrArg (fun v => (objKeys v).length) h
  exact absurd h2 (by decide)

end InspectAI
